import Mathlib

/-!
# docfinder — verification of the markdown generator core

Shallow embedding of `internal/generator` (generator.go, schema.go,
formatter.go, constants.go) of the `arthur-s/docfinder` repository.

Modelling conventions:
* Go strings are Lean `String`s. Byte-wise lexicographic order on UTF-8
  strings coincides with the code-point order of Lean's `String`
  `LinearOrder`, so `sort.Strings` is `List.insertionSort (· ≤ ·)`.
* A Go map is modelled as an association list `List (String × α)` whose
  list order is the (runtime-chosen, arbitrary) iteration order of the map.
  Two renders of the same logical map are two permutations of the list.
  Go map keys are unique, so theorems assume `Nodup` on the key column
  where a lookup after sorting occurs.
* A nil Go pointer (or a `*Ref` whose `Value` is nil where the code treats
  the two alike) is `Option.none`.
* A dynamic Go `interface{}` value is `GoValue`: `repr` is its `fmt "%v"`
  rendering and `json` is the result of `json.MarshalIndent(v, "", "  ")`
  (`none` = marshalling error).  Go `float64` fields only ever reach the
  output through `%v`, so they are carried as their `%v` rendering.
* `openapi3.Types` is `*Types` with `Types = []string`; it is modelled as
  `Option (List String)` (`none` = nil pointer).
* `FormatSchema(schema, indent, maxDepth)` recurses with `maxDepth-1` on
  every recursive call and stops at `maxDepth <= 0`; every reachable call
  has `maxDepth ≥ 0`, so the budget is a `Nat` matched structurally: the
  helpers receive `recurse`, which is `FormatSchema` at budget
  `maxDepth - 1`, exactly the argument the Go helpers pass.
-/

namespace Docfinder

/-- A non-nil Go `interface{}` value: its `%v` rendering and its
`json.MarshalIndent` result (`none` when marshalling fails). -/
structure GoValue where
  repr : String
  json : Option String
deriving DecidableEq

/-- A Go `float64` carried opaquely as its `%v` rendering
(the generator never computes with these numbers, it only prints them). -/
structure GoNum where
  repr : String
deriving DecidableEq

/-- `fmt "%v"` of a possibly-nil `interface{}`. -/
def govOpt : Option GoValue → String
  | none => "<nil>"
  | some v => v.repr

/-- `fmt "%v"` of a `[]interface{}` (Go prints `[a b c]`). -/
def govList (vs : List GoValue) : String :=
  "[" ++ String.intercalate " " (vs.map GoValue.repr) ++ "]"

/-- The scalar (non-recursive) fields of `openapi3.Schema` used by the
generator.  `type_` models the `Type *Types` pointer. -/
structure SchemaCore where
  type_ : Option (List String)
  format : String
  nullable : Bool
  deprecated : Bool
  description : String
  default_ : Option GoValue
  example_ : Option GoValue
  enum : List GoValue
  minLength : Nat
  maxLength : Option Nat
  pattern : String
  min : Option GoNum
  max : Option GoNum
  exclusiveMin : Bool
  exclusiveMax : Bool
  multipleOf : Option GoNum
  minItems : Nat
  maxItems : Option Nat
  uniqueItems : Bool
  minProps : Nat
  maxProps : Option Nat
  required : List String
deriving DecidableEq

/-- `openapi3.Schema`: scalar core plus the recursive fields.  A property
entry `(name, none)` is a nil `*SchemaRef` (or one with nil `Value`),
which the code skips; likewise for `items` and composition members. -/
inductive Schema where
  | mk (core : SchemaCore)
       (properties : List (String × Option Schema))
       (items : Option Schema)
       (oneOf : List (Option Schema))
       (anyOf : List (Option Schema))
       (allOf : List (Option Schema))

def Schema.core : Schema → SchemaCore
  | .mk c _ _ _ _ _ => c

def Schema.properties : Schema → List (String × Option Schema)
  | .mk _ p _ _ _ _ => p

def Schema.items : Schema → Option Schema
  | .mk _ _ i _ _ _ => i

def Schema.oneOf : Schema → List (Option Schema)
  | .mk _ _ _ o _ _ => o

def Schema.anyOf : Schema → List (Option Schema)
  | .mk _ _ _ _ a _ => a

def Schema.allOf : Schema → List (Option Schema)
  | .mk _ _ _ _ _ a => a

/-- `openapi3.Types.Slice()`: nil pointer gives a nil slice. -/
def typesSlice (t : Option (List String)) : Option (List String) := t

/-- `openapi3.Types.Is(typ)`: true iff the pointer is non-nil, the slice
has exactly one element and that element equals `typ`. -/
def typesIs (t : Option (List String)) (typ : String) : Bool :=
  match t with
  | none => false
  | some ts => ts.length = 1 && ts.headD "" = typ

/-! ## constants.go -/

def HeaderParameters : String := "### Parameters\n\n"
def HeaderRequestBody : String := "### Request Body\n\n"
def HeaderResponses : String := "### Responses\n\n"
def HeaderSecurity : String := "### Security\n\n"
def HeaderExamples : String := "\n**Examples:**\n\n"
def HeaderHeaders : String := "**Headers:**\n\n"
def HeaderSchema : String := "**Schema:**\n\n"

def SeparatorOperation : String := "---\n\n"
def MarkerRequired : String := " **(required)**"
def MarkerDeprecated : String := " ⚠️ *deprecated*"

/-- `MaxRecursionDepth` from constants.go. -/
def MaxRecursionDepth : Nat := 20

/-! ## formatter.go -/

/-- `FormatType` (formatter.go): display type of a possibly-nil schema. -/
def FormatType (schema : Option Schema) : String :=
  match schema with
  | none => "unknown"
  | some s =>
    let types := (typesSlice s.core.type_).getD []
    if types.length = 0 then "unknown"
    else if types.length = 1 then types.headD ""
    else String.intercalate " | " types

/-- The constraint entries appended by `FormatConstraints` (formatter.go),
in the code's order.  Each `if` block of the Go function contributes its
entry exactly when its condition holds. -/
def constraintsList (s : SchemaCore) : List String :=
  (if s.minLength > 0 then ["minLength: " ++ toString s.minLength] else [])
  ++ (match s.maxLength with
      | some n => ["maxLength: " ++ toString n]
      | none => [])
  ++ (if s.pattern ≠ "" then ["pattern: `" ++ s.pattern ++ "`"] else [])
  ++ (match s.min with
      | some v => ["min: " ++ v.repr ++ (if s.exclusiveMin then " (exclusive)" else "")]
      | none => [])
  ++ (match s.max with
      | some v => ["max: " ++ v.repr ++ (if s.exclusiveMax then " (exclusive)" else "")]
      | none => [])
  ++ (match s.multipleOf with
      | some v => ["multipleOf: " ++ v.repr]
      | none => [])
  ++ (if s.minItems > 0 then ["minItems: " ++ toString s.minItems] else [])
  ++ (match s.maxItems with
      | some n => ["maxItems: " ++ toString n]
      | none => [])
  ++ (if s.uniqueItems then ["uniqueItems: true"] else [])
  ++ (if s.minProps > 0 then ["minProperties: " ++ toString s.minProps] else [])
  ++ (match s.maxProps with
      | some n => ["maxProperties: " ++ toString n]
      | none => [])

/-- `FormatConstraints` (formatter.go). -/
def FormatConstraints (schema : Option Schema) : String :=
  match schema with
  | none => ""
  | some s =>
    let constraints := constraintsList s.core
    if constraints.length = 0 then ""
    else String.intercalate ", " constraints

/-- `FormatJSON` (formatter.go): `none` result models the error return.
A nil value yields `"{}"` with no error. -/
def FormatJSON (value : Option GoValue) : Option String :=
  match value with
  | none => some "{}"
  | some v => v.json

/-- `buildRequiredMap` (formatter.go): membership map over the required
names. -/
def buildRequiredMap (required : List String) : String → Bool :=
  fun name => required.contains name

/-- Key extraction plus `sort.Strings`, shared by the five
`getSorted*` helpers of formatter.go. -/
def sortedKeys {α : Type} (m : List (String × α)) : List String :=
  List.insertionSort (· ≤ ·) (m.map Prod.fst)

def getSortedPropertyNames (properties : List (String × Option Schema)) : List String :=
  sortedKeys properties

/-! ## schema.go -/

/-- `strings.Repeat("  ", indent)`. -/
def indentPfx (indent : Nat) : String :=
  String.join (List.replicate indent "  ")

/-- `formatSchemaComposition` (schema.go).  `recurse` is
`FormatSchema` at budget `maxDepth - 1`, the argument the Go code passes
on each member. -/
def formatSchemaComposition (recurse : Option Schema → Nat → String)
    (keyword description : String) (schemas : List (Option Schema))
    (pfx : String) (indent : Nat) : String :=
  pfx ++ "- **" ++ keyword ++ "** (" ++ description ++ "):\n"
  ++ String.join (schemas.enum.map (fun e =>
      pfx ++ "  - Option " ++ toString (e.1 + 1) ++ ":\n"
      ++ match e.2 with
         | some v => recurse (some v) (indent + 2)
         | none => ""))

/-- The per-property block of `formatObjectSchema` (schema.go). -/
def formatObjectProperty (recurse : Option Schema → Nat → String)
    (requiredMap : String → Bool) (pfx : String) (indent : Nat)
    (propName : String) (propOpt : Option (Option Schema)) : String :=
  match propOpt with
  | none => ""
  | some none => ""
  | some (some prop) =>
    pfx ++ "  - **" ++ propName ++ "**"
    ++ (if requiredMap propName then MarkerRequired else "")
    ++ (if prop.core.deprecated then MarkerDeprecated else "")
    ++ (if prop.core.description ≠ "" then ": " ++ prop.core.description ++ "\n" else "\n")
    ++ pfx ++ "    - Type: `" ++ FormatType (some prop) ++ "`\n"
    ++ (if prop.core.format ≠ "" then pfx ++ "    - Format: `" ++ prop.core.format ++ "`\n" else "")
    ++ (match prop.core.default_ with
        | some v => pfx ++ "    - Default: `" ++ v.repr ++ "`\n"
        | none => "")
    ++ (match prop.core.example_ with
        | some v => pfx ++ "    - Example: `" ++ v.repr ++ "`\n"
        | none => "")
    ++ (if prop.core.nullable then pfx ++ "    - Nullable: `true`\n" else "")
    ++ (let constraints := FormatConstraints (some prop)
        if constraints ≠ "" then pfx ++ "    - Constraints: " ++ constraints ++ "\n" else "")
    ++ (if prop.core.enum ≠ [] then pfx ++ "    - Allowed values: " ++ govList prop.core.enum ++ "\n" else "")
    ++ (if typesIs prop.core.type_ "object" && !prop.properties.isEmpty
        then recurse (some prop) (indent + 2) else "")
    ++ (if typesIs prop.core.type_ "array"
        then match prop.items with
             | some item => pfx ++ "    - Items:\n" ++ recurse (some item) (indent + 3)
             | none => ""
        else "")

/-- `formatObjectSchema` (schema.go). -/
def formatObjectSchema (recurse : Option Schema → Nat → String)
    (s : Schema) (pfx : String) (indent : Nat) : String :=
  pfx ++ "- Type: `object`\n"
  ++ (if s.core.nullable then pfx ++ "- Nullable: `true`\n" else "")
  ++ (if s.properties.isEmpty then "" else
      pfx ++ "- Properties:\n"
      ++ String.join ((getSortedPropertyNames s.properties).map (fun propName =>
          formatObjectProperty recurse (buildRequiredMap s.core.required) pfx indent
            propName (s.properties.lookup propName))))

/-- `formatArraySchema` (schema.go). -/
def formatArraySchema (recurse : Option Schema → Nat → String)
    (s : Schema) (pfx : String) (indent : Nat) : String :=
  pfx ++ "- Type: `array`\n"
  ++ (if s.core.nullable then pfx ++ "- Nullable: `true`\n" else "")
  ++ (let constraints := FormatConstraints (some s)
      if constraints ≠ "" then pfx ++ "- Constraints: " ++ constraints ++ "\n" else "")
  ++ (match s.items with
      | some item => pfx ++ "- Items:\n" ++ recurse (some item) (indent + 1)
      | none => "")

/-- `formatPrimitiveSchema` (schema.go). -/
def formatPrimitiveSchema (s : Schema) (pfx : String) : String :=
  pfx ++ "- Type: `" ++ FormatType (some s) ++ "`\n"
  ++ (if s.core.format ≠ "" then pfx ++ "- Format: `" ++ s.core.format ++ "`\n" else "")
  ++ (if s.core.nullable then pfx ++ "- Nullable: `true`\n" else "")
  ++ (match s.core.default_ with
      | some v => pfx ++ "- Default: `" ++ v.repr ++ "`\n"
      | none => "")
  ++ (match s.core.example_ with
      | some v => pfx ++ "- Example: `" ++ v.repr ++ "`\n"
      | none => "")
  ++ (let constraints := FormatConstraints (some s)
      if constraints ≠ "" then pfx ++ "- Constraints: " ++ constraints ++ "\n" else "")
  ++ (if s.core.enum ≠ [] then pfx ++ "- Allowed values: " ++ govList s.core.enum ++ "\n" else "")

/-- `FormatSchema` (schema.go).  The nil check precedes the depth check,
as in the source; the budget is matched structurally, and the helpers
receive the renderer at budget `maxDepth - 1`. -/
def FormatSchema (schema : Option Schema) (indent : Nat) : Nat → String
  | 0 =>
    match schema with
    | none => ""
    | some _ => indentPfx indent ++ "- *(max depth reached)*\n"
  | maxDepth + 1 =>
    match schema with
    | none => ""
    | some s =>
      let pfx := indentPfx indent
      let recurse := fun s2 ind2 => FormatSchema s2 ind2 maxDepth
      if !s.oneOf.isEmpty then
        formatSchemaComposition recurse "oneOf" "one of the following" s.oneOf pfx indent
      else if !s.anyOf.isEmpty then
        formatSchemaComposition recurse "anyOf" "any of the following" s.anyOf pfx indent
      else if !s.allOf.isEmpty then
        formatSchemaComposition recurse "allOf" "all of the following" s.allOf pfx indent
      else if typesIs s.core.type_ "object" then
        formatObjectSchema recurse s pfx indent
      else if typesIs s.core.type_ "array" then
        formatArraySchema recurse s pfx indent
      else if (typesSlice s.core.type_).isSome then
        formatPrimitiveSchema s pfx
      else ""

/-! ## generator.go — data model

`openapi3.T` keeps only the fields the generator reads (`Info`,
`Servers`).  Maps are association lists in iteration order; see the
header comment. -/

structure Info where
  title : String
  version : String
deriving DecidableEq

structure Server where
  url : String
  description : String
deriving DecidableEq

structure Doc where
  info : Option Info
  servers : List Server
deriving DecidableEq

/-- `openapi3.Parameter` (the fields `writeParameters` reads);
`in_` is the Go field `In`. -/
structure Param where
  name : String
  in_ : String
  required : Bool
  deprecated : Bool
  description : String
  schema : Option Schema

/-- `openapi3.Example` (the fields `writeExamples` reads); a nil
`Value` is `none`. -/
structure ExampleObj where
  summary : String
  value : Option GoValue
deriving DecidableEq

/-- `openapi3.MediaType`: schema (nil ref/value collapsed) and the
examples map in iteration order (`none` entry = nil `*ExampleRef` or nil
`Value`, both skipped alike by the code). -/
structure MediaType where
  schema : Option Schema
  examples : List (String × Option ExampleObj)

/-- `openapi3.RequestBody` behind a non-nil ref with non-nil value. -/
structure RequestBody where
  description : String
  required : Bool
  content : List (String × Option MediaType)

/-- `openapi3.Header` value of a response header ref. -/
structure RespHeader where
  description : String
  schema : Option Schema

/-- `openapi3.Response` behind a ref: `description` is `*string`. -/
structure Response where
  description : Option String
  headers : List (String × Option RespHeader)
  content : List (String × Option MediaType)

/-- One `openapi3.SecurityRequirement`: a `map[string][]string` in
iteration order. -/
abbrev SecurityRequirement := List (String × List String)

/-- `openapi3.Operation` (fields the generator reads).  `responses`
models `*openapi3.Responses`; its `Map()` is the association list
(`none` = nil pointer; a nil map and an empty map behave alike and are
the empty list).  `security` models `*openapi3.SecurityRequirements`. -/
structure Operation where
  summary : String
  description : String
  operationID : String
  tags : List String
  deprecated : Bool
  parameters : List (Option Param)
  requestBody : Option RequestBody
  responses : Option (List (String × Option Response))
  security : Option (List SecurityRequirement)

/-- `openapi3.PathItem`: one optional operation per HTTP method. -/
structure PathItem where
  connect : Option Operation := none
  delete : Option Operation := none
  get : Option Operation := none
  head : Option Operation := none
  options : Option Operation := none
  patch : Option Operation := none
  post : Option Operation := none
  put : Option Operation := none
  trace : Option Operation := none

/-- The entries of the map built by `openapi3.PathItem.Operations()`:
one `(METHOD, op)` pair per non-nil field.  The map's iteration order is
arbitrary; `writeOperations` receives it as an explicit list that must be
a permutation of these entries. -/
def definedOps (p : PathItem) : List (String × Operation) :=
  (match p.connect with | some v => [("CONNECT", v)] | none => [])
  ++ (match p.delete with | some v => [("DELETE", v)] | none => [])
  ++ (match p.get with | some v => [("GET", v)] | none => [])
  ++ (match p.head with | some v => [("HEAD", v)] | none => [])
  ++ (match p.options with | some v => [("OPTIONS", v)] | none => [])
  ++ (match p.patch with | some v => [("PATCH", v)] | none => [])
  ++ (match p.post with | some v => [("POST", v)] | none => [])
  ++ (match p.put with | some v => [("PUT", v)] | none => [])
  ++ (match p.trace with | some v => [("TRACE", v)] | none => [])

/-- `strings.ToUpper` restricted to ASCII, which covers every HTTP
method string that reaches it (character-by-character upper-casing). -/
def goToUpper (s : String) : String := String.mk (s.data.map Char.toUpper)

/-! ## generator.go — rendering -/

def getSortedContentTypes (content : List (String × Option MediaType)) : List String :=
  sortedKeys content

def getSortedStatusCodes (responses : List (String × Option Response)) : List String :=
  sortedKeys responses

def getSortedHeaderNames (headers : List (String × Option RespHeader)) : List String :=
  sortedKeys headers

def getSortedExampleNames (examples : List (String × Option ExampleObj)) : List String :=
  sortedKeys examples

/-- `writeHeader` (generator.go). -/
def writeHeader (doc : Doc) (path : String) : String :=
  "# API Endpoint: " ++ path ++ "\n\n"
  ++ (match doc.info with
      | some i => "**API:** " ++ i.title ++ " " ++ i.version ++ "\n\n"
      | none => "")
  ++ (if doc.servers.isEmpty then "" else
      "**Base URL(s):**\n"
      ++ String.join (doc.servers.map (fun server =>
          if server.description ≠ "" then
            "- `" ++ server.url ++ "` - " ++ server.description ++ "\n"
          else
            "- `" ++ server.url ++ "`\n"))
      ++ "\n")

/-- `writeOperationMetadata` (generator.go). -/
def writeOperationMetadata (operation : Operation) : String :=
  (if operation.deprecated then
     "⚠️ **DEPRECATED** - This operation is deprecated and may be removed in a future version.\n\n"
   else "")
  ++ (if operation.summary ≠ "" then "**Summary:** " ++ operation.summary ++ "\n\n" else "")
  ++ (if operation.description ≠ "" then "**Description:** " ++ operation.description ++ "\n\n" else "")
  ++ (if operation.operationID ≠ "" then "**Operation ID:** `" ++ operation.operationID ++ "`\n\n" else "")
  ++ (if !operation.tags.isEmpty then "**Tags:** " ++ String.intercalate ", " operation.tags ++ "\n\n" else "")

/-- The per-parameter block of `writeParameters` (generator.go). -/
def writeParameterEntry (paramRef : Option Param) : String :=
  match paramRef with
  | none => ""
  | some param =>
    "- **" ++ param.name ++ "** (" ++ param.in_ ++ ")"
    ++ (if param.required then MarkerRequired else "")
    ++ (if param.deprecated then MarkerDeprecated else "")
    ++ "\n"
    ++ (if param.description ≠ "" then "  - Description: " ++ param.description ++ "\n" else "")
    ++ (match param.schema with
        | none => ""
        | some schema =>
          "  - Type: `" ++ FormatType (some schema) ++ "`\n"
          ++ (if schema.core.format ≠ "" then "  - Format: `" ++ schema.core.format ++ "`\n" else "")
          ++ (match schema.core.default_ with
              | some v => "  - Default: `" ++ v.repr ++ "`\n"
              | none => "")
          ++ (match schema.core.example_ with
              | some v => "  - Example: `" ++ v.repr ++ "`\n"
              | none => "")
          ++ (let constraints := FormatConstraints (some schema)
              if constraints ≠ "" then "  - Constraints: " ++ constraints ++ "\n" else "")
          ++ (if !schema.core.enum.isEmpty then "  - Allowed values: " ++ govList schema.core.enum ++ "\n" else ""))

/-- `writeParameters` (generator.go). -/
def writeParameters (parameters : List (Option Param)) : String :=
  if parameters.isEmpty then ""
  else
    HeaderParameters
    ++ String.join (parameters.map writeParameterEntry)
    ++ "\n"

/-- The per-example block of the `writeExamples` loop (generator.go):
label line, then the JSON block, falling back to a plain fenced block
with the `%v` rendering when marshalling fails. -/
def writeExampleEntry (exampleName : String) (exampleRef : Option ExampleObj) : String :=
  match exampleRef with
  | none => ""
  | some ex =>
    (if ex.summary ≠ "" then
       "*" ++ ex.summary ++ "* (`" ++ exampleName ++ "`):\n\n"
     else
       "*Example: `" ++ exampleName ++ "`*:\n\n")
    ++ (match FormatJSON ex.value with
        | none => "```\n" ++ govOpt ex.value ++ "\n```\n\n"
        | some jsonStr => "```json\n" ++ jsonStr ++ "\n```\n\n")

/-- `writeExamples` (generator.go). -/
def writeExamples (examples : List (String × Option ExampleObj)) : String :=
  if examples.isEmpty then ""
  else
    HeaderExamples
    ++ String.join ((getSortedExampleNames examples).map (fun exampleName =>
        writeExampleEntry exampleName ((examples.lookup exampleName).getD none)))

/-- The per-content-type block shared by `writeRequestBody` and
`writeResponses` (generator.go). -/
def writeContentEntry (contentType : String) (mediaTypeOpt : Option (Option MediaType)) : String :=
  match mediaTypeOpt with
  | none => ""
  | some none => ""
  | some (some mediaType) =>
    "**Content-Type:** `" ++ contentType ++ "`\n\n"
    ++ (match mediaType.schema with
        | some schema => HeaderSchema ++ FormatSchema (some schema) 0 MaxRecursionDepth
        | none => "")
    ++ writeExamples mediaType.examples

/-- `writeRequestBody` (generator.go). -/
def writeRequestBody (requestBodyRef : Option RequestBody) : String :=
  match requestBodyRef with
  | none => ""
  | some reqBody =>
    HeaderRequestBody
    ++ (if reqBody.description ≠ "" then reqBody.description ++ "\n\n" else "")
    ++ (if reqBody.required then "**Required:** (required)\n\n" else "**Required:** (optional)\n\n")
    ++ String.join ((getSortedContentTypes reqBody.content).map (fun contentType =>
        writeContentEntry contentType (reqBody.content.lookup contentType)))
    ++ "\n"

/-- `writeResponseHeaders` (generator.go). -/
def writeResponseHeaders (headers : List (String × Option RespHeader)) : String :=
  if headers.isEmpty then ""
  else
    HeaderHeaders
    ++ String.join ((getSortedHeaderNames headers).map (fun headerName =>
        match (headers.lookup headerName).getD none with
        | none => ""
        | some header =>
          "- `" ++ headerName ++ "`"
          ++ (if header.description ≠ "" then " - " ++ header.description else "")
          ++ "\n"
          ++ (match header.schema with
              | some s => "  - Type: `" ++ FormatType (some s) ++ "`\n"
              | none => "")))
    ++ "\n"

/-- The per-status block of the `writeResponses` loop (generator.go). -/
def writeResponseEntry (status : String) (respRef : Option (Option Response)) : String :=
  match respRef with
  | none => ""
  | some none => ""
  | some (some resp) =>
    "#### " ++ status ++ "\n\n"
    ++ (match resp.description with
        | some d => d ++ "\n\n"
        | none => "")
    ++ writeResponseHeaders resp.headers
    ++ String.join ((getSortedContentTypes resp.content).map (fun contentType =>
        writeContentEntry contentType (resp.content.lookup contentType)))
    ++ "\n"

/-- `writeResponses` (generator.go). -/
def writeResponses (responses : Option (List (String × Option Response))) : String :=
  match responses with
  | none => ""
  | some m =>
    if m.isEmpty then ""
    else
      HeaderResponses
      ++ String.join ((getSortedStatusCodes m).map (fun status =>
          writeResponseEntry status (m.lookup status)))

/-- `writeSecurity` (generator.go): the outer requirements slice is
iterated in order; each requirement map is iterated directly, in whatever
order the list presents (the code does not sort these keys). -/
def writeSecurity (security : Option (List SecurityRequirement)) : String :=
  match security with
  | none => ""
  | some reqs =>
    if reqs.isEmpty then ""
    else
      HeaderSecurity
      ++ String.join (reqs.map (fun secReq =>
          String.join (secReq.map (fun e =>
            if !e.2.isEmpty then
              "- **" ++ e.1 ++ "**: " ++ String.intercalate ", " e.2 ++ "\n"
            else
              "- **" ++ e.1 ++ "**\n"))))
      ++ "\n"

/-- `writeOperation` (generator.go). -/
def writeOperation (method path : String) (operation : Operation) : String :=
  "## " ++ goToUpper method ++ " " ++ path ++ "\n\n"
  ++ writeOperationMetadata operation
  ++ writeParameters operation.parameters
  ++ writeRequestBody operation.requestBody
  ++ writeResponses operation.responses
  ++ writeSecurity operation.security
  ++ SeparatorOperation

/-- `writeOperations` (generator.go).  `ops` is the iteration sequence of
the `pathItem.Operations()` map (its entries in the runtime-chosen
order); `Operations()` never stores a nil operation, so entries are
plain pairs.  An operation whose method fails the non-empty filter is
skipped entirely. -/
def writeOperations (path : String) (ops : List (String × Operation)) (methodFilter : String) : String :=
  String.join (ops.map (fun e =>
    if methodFilter ≠ "" && e.1 ≠ methodFilter then ""
    else writeOperation e.1 path e.2))

/-- `GenerateMarkdown` (generator.go).  `ops` is the iteration sequence
of `pathItem.Operations()`; callers constrain it to a permutation of
`definedOps` of the path item. -/
def GenerateMarkdown (doc : Doc) (path : String) (pathItem : Option PathItem)
    (methodFilter : String) (ops : List (String × Operation)) : String :=
  match pathItem with
  | none => ""
  | some _ => writeHeader doc path ++ writeOperations path ops methodFilter

/-! ## Observation helpers (spec side) -/

/-- Number of (possibly overlapping) occurrences of the non-empty pattern
`pat` in `s`, as character lists. -/
def countSub (pat : List Char) : List Char → Nat
  | [] => 0
  | c :: rest => (if pat.isPrefixOf (c :: rest) then 1 else 0) + countSub pat rest

/-- Occurrence count of a pattern string in a string. -/
def strCount (pat s : String) : Nat := countSub pat.data s.data

/-- Whether a constraint entry is the one for the given label, i.e. the
entry text starts with the label. -/
def entryIsFor (label entry : String) : Bool := label.data.isPrefixOf entry.data

/-- Right-nested join, used on the specification side of equations. -/
def joinStrings : List String → String
  | [] => ""
  | s :: rest => s ++ joinStrings rest

/-! ## Test fixtures -/

/-- A schema core with every field absent / zero-valued. -/
def core0 : SchemaCore :=
  { type_ := none, format := "", nullable := false, deprecated := false,
    description := "", default_ := none, example_ := none, enum := [],
    minLength := 0, maxLength := none, pattern := "",
    min := none, max := none, exclusiveMin := false, exclusiveMax := false,
    multipleOf := none, minItems := 0, maxItems := none, uniqueItems := false,
    minProps := 0, maxProps := none, required := [] }

def objCore : SchemaCore := { core0 with type_ := some ["object"] }

def strSchema : Schema := .mk { core0 with type_ := some ["string"] } [] none [] [] []

/-- `deepObj n` is a chain of `n + 1` nested objects: each level is an
object whose single property `child` is the next level (the innermost
child is a string schema). -/
def deepObj : Nat → Schema
  | 0 => .mk objCore [("child", some strSchema)] none [] [] []
  | m + 1 => .mk objCore [("child", some (deepObj m))] none [] [] []

/-- The line shapes `FormatSchema` produces on a `deepObj` chain. -/
inductive RLine where
  | objType (indent : Nat)
  | props (indent : Nat)
  | childName (indent : Nat)
  | childType (indent : Nat)
  | bullet (indent : Nat)
deriving DecidableEq

def renderLine : RLine → String
  | .objType indent => indentPfx indent ++ "- Type: `object`\n"
  | .props indent => indentPfx indent ++ "- Properties:\n"
  | .childName indent => indentPfx indent ++ "  - **child**\n"
  | .childType indent => indentPfx indent ++ "    - Type: `object`\n"
  | .bullet indent => indentPfx indent ++ "- *(max depth reached)*\n"

/-- Expected line sequence for rendering a long `deepObj` chain with
`d` remaining depth: one rendered object level per unit of depth, then
the single max-depth bullet, and nothing after it. -/
def expectedTagged (indent : Nat) : Nat → List RLine
  | 0 => [.bullet indent]
  | d + 1 => [.objType indent, .props indent, .childName indent, .childType indent]
             ++ expectedTagged (indent + 2) d

def RLine.isBullet : RLine → Bool
  | .bullet _ => true
  | _ => false

def RLine.isProps : RLine → Bool
  | .props _ => true
  | _ => false

/-- Rendering of a composition member list as §4.4 of the specification
words it (amended): each sibling of the original list, in order, gets a
numbered sub-bullet starting at 1, followed by its own rendering at
`indent + 2` with depth budget decremented by one (`render` is the
renderer at the decremented budget). -/
def specComposition (render : Option Schema → Nat → String) (pfx : String)
    (indent : Nat) : Nat → List (Option Schema) → String
  | _, [] => ""
  | n, sref :: rest =>
    pfx ++ "  - Option " ++ toString n ++ ":\n"
    ++ (match sref with
        | some v => render (some v) (indent + 2)
        | none => "")
    ++ specComposition render pfx indent (n + 1) rest

/-- Full composition block as the (amended) specification words it: a
header line naming the keyword and its semantic, then the numbered
sub-bullets. -/
def specCompositionBlock (render : Option Schema → Nat → String)
    (keyword description pfx : String) (indent : Nat)
    (schemas : List (Option Schema)) : String :=
  pfx ++ "- **" ++ keyword ++ "** (" ++ description ++ "):\n"
  ++ specComposition render pfx indent 1 schemas

/-! ## Equivalence up to map iteration order (claim C1)

Two presentations of the same logical value differ only in the list
order of map-typed fields.  `FormatSchema` inspects a schema only down
to its depth budget, so schema equivalence is indexed by that budget. -/

def OptRel {α β : Type} (R : α → β → Prop) : Option α → Option β → Prop
  | none, none => True
  | some a, some b => R a b
  | _, _ => False

def PairRel {α β : Type} (R : α → β → Prop) (a : String × α) (b : String × β) : Prop :=
  a.1 = b.1 ∧ R a.2 b.2

/-- Two association lists present the same map, with values related
pointwise by `R`: one reorders to align with the other key-for-key. -/
def MapRel {α β : Type} (R : α → β → Prop) (l₁ : List (String × α)) (l₂ : List (String × β)) : Prop :=
  ∃ l, l₁.Perm l ∧ List.Forall₂ (PairRel R) l l₂

mutual

/-- Schema equivalence to depth `d`: equal scalar cores, property maps
equal up to iteration order (recursively, via `PropR`), items and
composition members related recursively.  At depth 0 only nil-ness is
observable. -/
def SEquiv : Nat → Option Schema → Option Schema → Prop
  | 0, a, b => a.isSome = b.isSome
  | _ + 1, none, none => True
  | d + 1, some s₁, some s₂ =>
      s₁.core = s₂.core
      ∧ MapRel (PropR d) s₁.properties s₂.properties
      ∧ SEquiv d s₁.items s₂.items
      ∧ List.Forall₂ (SEquiv d) s₁.oneOf s₂.oneOf
      ∧ List.Forall₂ (SEquiv d) s₁.anyOf s₂.anyOf
      ∧ List.Forall₂ (SEquiv d) s₁.allOf s₂.allOf
  | _ + 1, _, _ => False
termination_by d _ _ => (d, 0)

/-- Property-child relation: the parts of a child the parent object
renderer reads directly (core, property-list emptiness, items nil-ness)
plus recursive equivalence at the decremented budget. -/
def PropR : Nat → Option Schema → Option Schema → Prop
  | _, none, none => True
  | d, some c₁, some c₂ =>
      c₁.core = c₂.core
      ∧ c₁.properties.isEmpty = c₂.properties.isEmpty
      ∧ SEquiv d (some c₁) (some c₂)
      ∧ SEquiv d c₁.items c₂.items
  | _, _, _ => False
termination_by d _ _ => (d, 1)

end

/-- Well-formedness to depth `d`: every property map reachable within
the depth budget has distinct keys (true of every Go map). -/
def WfS : Nat → Option Schema → Prop
  | 0, _ => True
  | _ + 1, none => True
  | d + 1, some s =>
      (s.properties.map Prod.fst).Nodup
      ∧ (∀ p ∈ s.properties,
          match p.2 with
          | none => True
          | some c => WfS d (some c) ∧ WfS d c.items)
      ∧ WfS d s.items
      ∧ (∀ o ∈ s.oneOf, WfS d o)
      ∧ (∀ o ∈ s.anyOf, WfS d o)
      ∧ (∀ o ∈ s.allOf, WfS d o)

/-- Parameters are an ordered list; `writeParameters` reads only the
scalar fields and the top level of the attached schema. -/
def ParamRel : Option Param → Option Param → Prop
  | none, none => True
  | some p₁, some p₂ =>
      p₁.name = p₂.name ∧ p₁.in_ = p₂.in_ ∧ p₁.required = p₂.required
      ∧ p₁.deprecated = p₂.deprecated ∧ p₁.description = p₂.description
      ∧ OptRel (fun s₁ s₂ : Schema => s₁.core = s₂.core) p₁.schema p₂.schema
  | _, _ => False

/-- Media types: schema equivalent to the full starting depth budget,
examples map equal up to iteration order. -/
def MTRel : Option MediaType → Option MediaType → Prop
  | none, none => True
  | some m₁, some m₂ =>
      SEquiv MaxRecursionDepth m₁.schema m₂.schema
      ∧ MapRel (fun a b : Option ExampleObj => a = b) m₁.examples m₂.examples
  | _, _ => False

def HdrRel : Option RespHeader → Option RespHeader → Prop
  | none, none => True
  | some h₁, some h₂ =>
      h₁.description = h₂.description
      ∧ OptRel (fun s₁ s₂ : Schema => s₁.core = s₂.core) h₁.schema h₂.schema
  | _, _ => False

def RespRel : Option Response → Option Response → Prop
  | none, none => True
  | some r₁, some r₂ =>
      r₁.description = r₂.description
      ∧ MapRel HdrRel r₁.headers r₂.headers
      ∧ MapRel MTRel r₁.content r₂.content
  | _, _ => False

/-- Operations equal up to the iteration order of their sorted-before-use
maps.  The security requirement maps are iterated directly by
`writeSecurity`, so their presentation must coincide exactly. -/
def OpEquiv (o₁ o₂ : Operation) : Prop :=
  o₁.summary = o₂.summary
  ∧ o₁.description = o₂.description
  ∧ o₁.operationID = o₂.operationID
  ∧ o₁.tags = o₂.tags
  ∧ o₁.deprecated = o₂.deprecated
  ∧ List.Forall₂ ParamRel o₁.parameters o₂.parameters
  ∧ OptRel (fun r₁ r₂ : RequestBody =>
      r₁.description = r₂.description ∧ r₁.required = r₂.required
      ∧ MapRel MTRel r₁.content r₂.content) o₁.requestBody o₂.requestBody
  ∧ OptRel (MapRel RespRel) o₁.responses o₂.responses
  ∧ o₁.security = o₂.security

def WfMT : Option MediaType → Prop
  | none => True
  | some m => WfS MaxRecursionDepth m.schema ∧ (m.examples.map Prod.fst).Nodup

def WfResp : Option Response → Prop
  | none => True
  | some r =>
      (r.headers.map Prod.fst).Nodup
      ∧ (r.content.map Prod.fst).Nodup
      ∧ ∀ e ∈ r.content, WfMT e.2

def WfOp (o : Operation) : Prop :=
  (match o.requestBody with
   | none => True
   | some rb => (rb.content.map Prod.fst).Nodup ∧ ∀ e ∈ rb.content, WfMT e.2)
  ∧ (match o.responses with
     | none => True
     | some m => (m.map Prod.fst).Nodup ∧ ∀ e ∈ m, WfResp e.2)

/-! ## Concrete fixtures for counterexamples and witnesses -/

def emptyOp : Operation :=
  { summary := "", description := "", operationID := "", tags := [],
    deprecated := false, parameters := [], requestBody := none,
    responses := none, security := none }

/-- An operation whose only data is a single security requirement map,
given in the presentation (iteration) order `req`. -/
def opSec (req : SecurityRequirement) : Operation :=
  { emptyOp with security := some [req] }

def doc0 : Doc := { info := none, servers := [] }

/-- The same logical security requirement map in two iteration orders. -/
def secReqAB : SecurityRequirement := [("a", ["s1"]), ("b", [])]
def secReqBA : SecurityRequirement := [("b", []), ("a", ["s1"])]

def piSecAB : PathItem := { get := some (opSec secReqAB) }
def piSecBA : PathItem := { get := some (opSec secReqBA) }

/-- Schema with an `allOf` list of two members (for claim C4). -/
def allOfSchema : Schema := .mk core0 [] none [] [] [some strSchema, some strSchema]

/-- Schema with both `oneOf` and `allOf` populated (for claim C3). -/
def oneAllSchema : Schema := .mk objCore [("p", some strSchema)] none
  [some strSchema] [] [some strSchema, some strSchema]

/-- Schema with no declared type but a non-empty enum (for claim C6). -/
def enumNoType : Schema := .mk { core0 with enum := [{ repr := "a", json := some "\"a\"" }] } [] none [] [] []

/-- Schema with a present (primitive) type and a non-empty enum. -/
def enumStrCore : SchemaCore :=
  { core0 with
    type_ := some ["string"]
    enum := [{ repr := "a", json := some "\"a\"" }, { repr := "b", json := some "\"b\"" }] }

def enumStr : Schema := .mk enumStrCore [] none [] [] []

/-- A value whose JSON marshalling fails (e.g. a Go channel or function
value), with `%v` rendering `"func()"`. -/
def vBad : GoValue := { repr := "func()", json := none }

/-- Operation with a request-body example that fails to marshal, plus a
response and a security section after it (for claim C8: the failure is
local and the rest of the operation still renders). -/
def cexFailOp : Operation :=
  { emptyOp with
    requestBody := some
      { description := "", required := true,
        content := [("application/json", some
          { schema := none,
            examples := [("bad", some { summary := "", value := some vBad })] })] },
    responses := some [("200", some { description := some "OK", headers := [], content := [] })],
    security := some [[("api_key", [])]] }

def docC9 : Doc := { info := some { title := "Test API", version := "1.0.0" }, servers := [] }

/-- Path item with GET, PUT and DELETE operations (for claim C7). -/
def piGPD : PathItem := { get := some emptyOp, put := some emptyOp, delete := some emptyOp }

def piEmpty : PathItem := {}

/-- Object schema with two properties, presented in two orders
(witness data for the amended claim C1). -/
def wSchemaAB : Schema := .mk objCore [("a", some strSchema), ("b", some strSchema)] none [] [] []
def wSchemaBA : Schema := .mk objCore [("b", some strSchema), ("a", some strSchema)] none [] [] []

def wOp (s : Schema) : Operation :=
  { emptyOp with
    requestBody := some
      { description := "", required := false,
        content := [("application/json", some { schema := some s, examples := [] })] } }

def wPI (s : Schema) : PathItem := { get := some (wOp s) }

/-! # Theorems -/

/-! ## Projection and string helpers -/

theorem core_mk (c p i o a l) : (Schema.mk c p i o a l).core = c := rfl
theorem properties_mk (c p i o a l) : (Schema.mk c p i o a l).properties = p := rfl
theorem items_mk (c p i o a l) : (Schema.mk c p i o a l).items = i := rfl
theorem oneOf_mk (c p i o a l) : (Schema.mk c p i o a l).oneOf = o := rfl
theorem anyOf_mk (c p i o a l) : (Schema.mk c p i o a l).anyOf = a := rfl
theorem allOf_mk (c p i o a l) : (Schema.mk c p i o a l).allOf = l := rfl

theorem join_singleton (a : String) : String.join [a] = a := by
  simp [String.join]

theorem join_cons (a : String) (l : List String) :
    String.join (a :: l) = a ++ String.join l := by
  apply String.ext
  simp [String.data_append]

theorem fold_seg1 (r : String) : "child" ++ ("**" ++ ("\n" ++ r)) = "child**\n" ++ r := by
  rw [← String.append_assoc, ← String.append_assoc]
  exact congrArg (· ++ r) (by decide)

theorem fold_seg2 (r : String) : "  - **" ++ ("child**\n" ++ r) = "  - **child**\n" ++ r := by
  rw [← String.append_assoc]
  exact congrArg (· ++ r) (by decide)

theorem fold_seg3 (r : String) : "object" ++ ("`\n" ++ r) = "object`\n" ++ r := by
  rw [← String.append_assoc]
  exact congrArg (· ++ r) (by decide)

theorem fold_seg4 (r : String) : "    - Type: `" ++ ("object`\n" ++ r) = "    - Type: `object`\n" ++ r := by
  rw [← String.append_assoc]
  exact congrArg (· ++ r) (by decide)

/-! ## Claim C2: depth bounding -/

theorem deepObj_core (n : Nat) : (deepObj n).core = objCore := by
  cases n <;> rfl

theorem deepObj_props_isEmpty (n : Nat) : (deepObj n).properties.isEmpty = false := by
  cases n <;> rfl

/-- Rendering one object level whose single property `child` is the
object schema `c`: the four header lines at this indent, then the
rendering of `c` at `indent + 2` with one less depth. -/
theorem formatSchema_objStep (c : Schema) (hcore : c.core = objCore)
    (hne : c.properties.isEmpty = false) (ind d : Nat) :
    FormatSchema (some (Schema.mk objCore [("child", some c)] none [] [] [])) ind (d + 1)
      = indentPfx ind ++ ("- Type: `object`\n"
        ++ (indentPfx ind ++ ("- Properties:\n"
        ++ (indentPfx ind ++ ("  - **child**\n"
        ++ (indentPfx ind ++ ("    - Type: `object`\n"
        ++ FormatSchema (some c) (ind + 2) d))))))) := by
  simp [FormatSchema, formatObjectSchema, formatObjectProperty,
    getSortedPropertyNames, sortedKeys, List.insertionSort, List.orderedInsert,
    buildRequiredMap, typesIs, typesSlice, FormatType, FormatConstraints,
    constraintsList, core_mk, properties_mk, items_mk, oneOf_mk, anyOf_mk, allOf_mk,
    hcore, hne, objCore, core0, List.lookup,
    MarkerRequired, MarkerDeprecated, govList,
    String.append_assoc, String.append_empty, String.empty_append,
    join_singleton, fold_seg1, fold_seg2, fold_seg3, fold_seg4]

/-- Rendering a `deepObj` chain longer than the depth budget `d`
produces exactly the `expectedTagged` line sequence: `d` object levels,
then the single max-depth bullet. -/
theorem formatSchema_deepObj (d : Nat) : ∀ n ind, d ≤ n →
    FormatSchema (some (deepObj n)) ind d
      = joinStrings ((expectedTagged ind d).map renderLine) := by
  induction d with
  | zero =>
    intro n ind h
    simp [FormatSchema, expectedTagged, renderLine, joinStrings, String.append_empty]
  | succ d ih =>
    intro n ind h
    match n with
    | 0 => omega
    | m + 1 =>
      calc FormatSchema (some (deepObj (m + 1))) ind (d + 1)
          = indentPfx ind ++ ("- Type: `object`\n"
            ++ (indentPfx ind ++ ("- Properties:\n"
            ++ (indentPfx ind ++ ("  - **child**\n"
            ++ (indentPfx ind ++ ("    - Type: `object`\n"
            ++ FormatSchema (some (deepObj m)) (ind + 2) d))))))) := by
            rw [show deepObj (m + 1)
                = Schema.mk objCore [("child", some (deepObj m))] none [] [] [] from rfl]
            exact formatSchema_objStep (deepObj m) (deepObj_core m) (deepObj_props_isEmpty m) ind d
        _ = joinStrings ((expectedTagged ind (d + 1)).map renderLine) := by
            rw [ih m (ind + 2) (by omega)]
            simp [expectedTagged, renderLine, joinStrings, String.append_assoc]

/-- C2: with the default starting depth `MaxRecursionDepth = 20`, a
chain of 25 nested objects (`deepObj 24`) renders exactly 20 object
levels (20 `Properties:` lines), then emits a single
`*(max depth reached)*` bullet at the current indent as its final line
and stops recursing; and at exhausted depth `FormatSchema` emits only
that bullet for any schema. -/
theorem formatSchema_depth_bound :
    FormatSchema (some (deepObj 24)) 0 MaxRecursionDepth
        = joinStrings ((expectedTagged 0 MaxRecursionDepth).map renderLine)
    ∧ (expectedTagged 0 MaxRecursionDepth).countP RLine.isBullet = 1
    ∧ (expectedTagged 0 MaxRecursionDepth).countP RLine.isProps = 20
    ∧ (expectedTagged 0 MaxRecursionDepth).getLast? = some (.bullet 40)
    ∧ (∀ s ind, FormatSchema (some s) ind 0 = indentPfx ind ++ "- *(max depth reached)*\n") := by
  refine ⟨formatSchema_deepObj 20 24 0 (by omega), by decide, by decide, by decide,
    fun s ind => rfl⟩

/-! ## Claim C3: composition priority -/

/-- C3: when `oneOf` is non-empty, the rendering ignores the core, the
properties, the items and the `anyOf`/`allOf` lists entirely (only the
`oneOf` branch is applied); when `oneOf` is empty and `anyOf` non-empty,
everything except `anyOf` is ignored; when only `allOf` is non-empty,
everything except `allOf` is ignored.  In particular a schema with both
`oneOf` and `allOf` populated renders only the `oneOf` branch, and the
concrete schema `oneAllSchema` (object type, one property, `oneOf` and
`allOf` both populated) renders exactly its `oneOf` block. -/
theorem formatSchema_composition_priority :
    (∀ d ind (c₁ c₂ : SchemaCore) p₁ p₂ i₁ i₂ one a₁ a₂ l₁ l₂, one ≠ [] →
      FormatSchema (some (.mk c₁ p₁ i₁ one a₁ l₁)) ind d
        = FormatSchema (some (.mk c₂ p₂ i₂ one a₂ l₂)) ind d)
    ∧ (∀ d ind (c₁ c₂ : SchemaCore) p₁ p₂ i₁ i₂ an l₁ l₂, an ≠ [] →
      FormatSchema (some (.mk c₁ p₁ i₁ [] an l₁)) ind d
        = FormatSchema (some (.mk c₂ p₂ i₂ [] an l₂)) ind d)
    ∧ (∀ d ind (c₁ c₂ : SchemaCore) p₁ p₂ i₁ i₂ al, al ≠ [] →
      FormatSchema (some (.mk c₁ p₁ i₁ [] [] al)) ind d
        = FormatSchema (some (.mk c₂ p₂ i₂ [] [] al)) ind d)
    ∧ FormatSchema (some oneAllSchema) 0 MaxRecursionDepth
        = "- **oneOf** (one of the following):\n  - Option 1:\n    - Type: `string`\n" := by
  refine ⟨?_, ?_, ?_, by decide⟩
  · intro d ind c₁ c₂ p₁ p₂ i₁ i₂ one a₁ a₂ l₁ l₂ hone
    cases d with
    | zero => rfl
    | succ d =>
      cases one with
      | nil => exact absurd rfl hone
      | cons x xs =>
        simp [FormatSchema, core_mk, properties_mk, items_mk, oneOf_mk, anyOf_mk, allOf_mk]
  · intro d ind c₁ c₂ p₁ p₂ i₁ i₂ an l₁ l₂ han
    cases d with
    | zero => rfl
    | succ d =>
      cases an with
      | nil => exact absurd rfl han
      | cons x xs =>
        simp [FormatSchema, core_mk, properties_mk, items_mk, oneOf_mk, anyOf_mk, allOf_mk]
  · intro d ind c₁ c₂ p₁ p₂ i₁ i₂ al hal
    cases d with
    | zero => rfl
    | succ d =>
      cases al with
      | nil => exact absurd rfl hal
      | cons x xs =>
        simp [FormatSchema, core_mk, properties_mk, items_mk, oneOf_mk, anyOf_mk, allOf_mk]

theorem formatSchema_composition_priority_witness :
    FormatSchema (some (Schema.mk core0 [] none [some strSchema] [] [some strSchema, some strSchema])) 0 2
      = FormatSchema (some (Schema.mk objCore [("p", some strSchema)] none [some strSchema] [] [])) 0 2 :=
  formatSchema_composition_priority.1 2 0 core0 objCore [] [("p", some strSchema)]
    none none [some strSchema] [] [] [some strSchema, some strSchema] [] (by simp)

/-! ## Claim C4: composition sibling labels -/

/-- Every sibling of a composition list, in original order, is labelled
with a 1-based `Option N` sub-bullet followed by its rendering at
`indent + 2` and decremented depth budget: the enumerated join of the
code equals a count-up recursion. -/
theorem joinEnumFrom_specComposition (d : Nat) (pfx : String) (ind : Nat) :
    ∀ (xs : List (Option Schema)) (n : Nat),
      String.join (List.map (fun e : Nat × Option Schema =>
        pfx ++ ("  - Option " ++ (toString (e.1 + 1) ++ (":\n"
        ++ match e.2 with
           | some v => FormatSchema (some v) (ind + 2) d
           | none => "")))) (List.enumFrom n xs))
        = specComposition (fun s2 i2 => FormatSchema s2 i2 d) pfx ind (n + 1) xs := by
  intro xs
  induction xs with
  | nil => intro n; simp [specComposition, String.join]
  | cons x xs ih =>
    intro n
    rw [List.enumFrom_cons, List.map_cons, join_cons, ih (n + 1)]
    simp [specComposition, String.append_assoc]

/-- C4 (amended): for each of the three composition keywords, in
priority position, the rendered block is the specification-side block
whose siblings are labelled `Option N` (1-based, original order) and
rendered at `indent + 2` with depth budget decremented by 1 — the same
`Option N` label for `allOf` as for `oneOf` and `anyOf`. -/
theorem formatSchema_composition_option_labels (s : Schema) (ind d : Nat) :
    (s.oneOf ≠ [] →
      FormatSchema (some s) ind (d + 1)
        = specCompositionBlock (fun s2 i2 => FormatSchema s2 i2 d)
            "oneOf" "one of the following" (indentPfx ind) ind s.oneOf)
    ∧ (s.oneOf = [] → s.anyOf ≠ [] →
      FormatSchema (some s) ind (d + 1)
        = specCompositionBlock (fun s2 i2 => FormatSchema s2 i2 d)
            "anyOf" "any of the following" (indentPfx ind) ind s.anyOf)
    ∧ (s.oneOf = [] → s.anyOf = [] → s.allOf ≠ [] →
      FormatSchema (some s) ind (d + 1)
        = specCompositionBlock (fun s2 i2 => FormatSchema s2 i2 d)
            "allOf" "all of the following" (indentPfx ind) ind s.allOf) := by
  refine ⟨?_, ?_, ?_⟩
  · intro hone
    rcases h1 : s.oneOf with _ | ⟨x, xs⟩
    · exact absurd h1 hone
    · simp [FormatSchema, formatSchemaComposition, specCompositionBlock, h1,
        List.enum, String.append_assoc]
      rw [join_cons, joinEnumFrom_specComposition]
      simp [specComposition, String.append_assoc]
  · intro h1 hany
    rcases h2 : s.anyOf with _ | ⟨x, xs⟩
    · exact absurd h2 hany
    · simp [FormatSchema, formatSchemaComposition, specCompositionBlock, h1, h2,
        List.enum, String.append_assoc]
      rw [join_cons, joinEnumFrom_specComposition]
      simp [specComposition, String.append_assoc]
  · intro h1 h2 hall
    rcases h3 : s.allOf with _ | ⟨x, xs⟩
    · exact absurd h3 hall
    · simp [FormatSchema, formatSchemaComposition, specCompositionBlock, h1, h2, h3,
        List.enum, String.append_assoc]
      rw [join_cons, joinEnumFrom_specComposition]
      simp [specComposition, String.append_assoc]

/-- C4 counterexample to the claim as stated: a two-member `allOf`
schema renders its siblings as `Option 1` / `Option 2`, never as
`Schema 1` — the output contains no `Schema` label at all. -/
theorem allOf_label_cex :
    FormatSchema (some allOfSchema) 0 MaxRecursionDepth
      = "- **allOf** (all of the following):\n  - Option 1:\n    - Type: `string`\n  - Option 2:\n    - Type: `string`\n"
    ∧ strCount "Schema" (FormatSchema (some allOfSchema) 0 MaxRecursionDepth) = 0
    ∧ strCount "Option 1" (FormatSchema (some allOfSchema) 0 MaxRecursionDepth) = 1
    ∧ strCount "Option 2" (FormatSchema (some allOfSchema) 0 MaxRecursionDepth) = 1 := by
  refine ⟨by decide, by decide, by decide, by decide⟩

theorem formatSchema_composition_option_labels_witness :
    FormatSchema (some allOfSchema) 0 MaxRecursionDepth
      = specCompositionBlock (fun s2 i2 => FormatSchema s2 i2 (MaxRecursionDepth - 1))
          "allOf" "all of the following" (indentPfx 0) 0 allOfSchema.allOf :=
  (formatSchema_composition_option_labels allOfSchema 0 (MaxRecursionDepth - 1)).2.2
    rfl rfl (by simp [allOfSchema, allOf_mk])

/-! ## Claim C5: constraint asymmetry -/

theorem isPrefixOf_append_false (p : List Char) : ∀ (a b : List Char),
    a.isPrefixOf p = false → p.isPrefixOf a = false → p.isPrefixOf (a ++ b) = false := by
  induction p with
  | nil =>
    intro a b h₁ h₂
    simp [List.isPrefixOf] at h₂
  | cons c p ih =>
    intro a b h₁ h₂
    cases a with
    | nil => simp [List.isPrefixOf] at h₁
    | cons d a =>
      by_cases hcd : c = d
      · subst hcd
        simp only [List.cons_append, List.isPrefixOf, beq_self_eq_true, Bool.true_and] at h₁ h₂ ⊢
        exact ih a b h₁ h₂
      · simp only [List.cons_append, List.isPrefixOf]
        have : (c == d) = false := by
          simp [hcd]
        simp [this]

/-- A constraint entry built from a head not matching the label is not
the label's entry, whatever its tail. -/
theorem entryNotFor (label head t : String)
    (h₁ : head.data.isPrefixOf label.data = false)
    (h₂ : label.data.isPrefixOf head.data = false) :
    entryIsFor label (head ++ t) = false := by
  unfold entryIsFor
  rw [String.data_append]
  exact isPrefixOf_append_false _ _ _ h₁ h₂

/-- Every entry of `constraintsList` is one of the eleven entry shapes,
each guarded by its field condition. -/
theorem constraintsList_entry_shapes (s : SchemaCore) : ∀ e ∈ constraintsList s,
    (0 < s.minLength ∧ e = "minLength: " ++ toString s.minLength)
    ∨ (∃ n, s.maxLength = some n ∧ e = "maxLength: " ++ toString n)
    ∨ (s.pattern ≠ "" ∧ e = "pattern: `" ++ (s.pattern ++ "`"))
    ∨ (∃ v, s.min = some v ∧ e = "min: " ++ (v.repr ++ (if s.exclusiveMin then " (exclusive)" else "")))
    ∨ (∃ v, s.max = some v ∧ e = "max: " ++ (v.repr ++ (if s.exclusiveMax then " (exclusive)" else "")))
    ∨ (∃ v, s.multipleOf = some v ∧ e = "multipleOf: " ++ v.repr)
    ∨ (0 < s.minItems ∧ e = "minItems: " ++ toString s.minItems)
    ∨ (∃ n, s.maxItems = some n ∧ e = "maxItems: " ++ toString n)
    ∨ (s.uniqueItems = true ∧ e = "uniqueItems: true")
    ∨ (0 < s.minProps ∧ e = "minProperties: " ++ toString s.minProps)
    ∨ (∃ n, s.maxProps = some n ∧ e = "maxProperties: " ++ toString n) := by
  intro e he
  simp only [constraintsList, List.mem_append] at he
  rcases he with (((((((((he | he) | he) | he) | he) | he) | he) | he) | he) | he) | he
  all_goals split at he <;> simp_all [String.append_assoc]

/-- C5: `FormatConstraints` (whose entry list is `constraintsList`)
omits `minLength` / `minItems` / `minProperties` when the field is 0,
but emits `maxLength` / `maxItems` / `maxProperties` whenever the
pointer field is set — including an explicitly set 0, which yields
`maxLength: 0`. -/
theorem formatConstraints_asymmetry (s : SchemaCore) :
    (s.minLength = 0 → ∀ e ∈ constraintsList s, entryIsFor "minLength" e = false)
    ∧ (s.minItems = 0 → ∀ e ∈ constraintsList s, entryIsFor "minItems" e = false)
    ∧ (s.minProps = 0 → ∀ e ∈ constraintsList s, entryIsFor "minProperties" e = false)
    ∧ (∀ n, s.maxLength = some n → ("maxLength: " ++ toString n) ∈ constraintsList s)
    ∧ (∀ n, s.maxItems = some n → ("maxItems: " ++ toString n) ∈ constraintsList s)
    ∧ (∀ n, s.maxProps = some n → ("maxProperties: " ++ toString n) ∈ constraintsList s)
    ∧ (s.maxLength = some 0 → "maxLength: 0" ∈ constraintsList s) := by
  have shapes := constraintsList_entry_shapes s
  refine ⟨?_, ?_, ?_, ?_, ?_, ?_, ?_⟩
  · intro h e he
    rcases shapes e he with hc | hc | hc | hc | hc | hc | hc | hc | hc | hc | hc
    · exact absurd hc.1 (by omega)
    · obtain ⟨n, _, rfl⟩ := hc; exact entryNotFor _ _ _ (by decide) (by decide)
    · obtain ⟨_, rfl⟩ := hc; exact entryNotFor _ _ _ (by decide) (by decide)
    · obtain ⟨v, _, rfl⟩ := hc; exact entryNotFor _ _ _ (by decide) (by decide)
    · obtain ⟨v, _, rfl⟩ := hc; exact entryNotFor _ _ _ (by decide) (by decide)
    · obtain ⟨v, _, rfl⟩ := hc; exact entryNotFor _ _ _ (by decide) (by decide)
    · obtain ⟨_, rfl⟩ := hc; exact entryNotFor _ _ _ (by decide) (by decide)
    · obtain ⟨n, _, rfl⟩ := hc; exact entryNotFor _ _ _ (by decide) (by decide)
    · obtain ⟨_, rfl⟩ := hc; decide
    · obtain ⟨_, rfl⟩ := hc; exact entryNotFor _ _ _ (by decide) (by decide)
    · obtain ⟨n, _, rfl⟩ := hc; exact entryNotFor _ _ _ (by decide) (by decide)
  · intro h e he
    rcases shapes e he with hc | hc | hc | hc | hc | hc | hc | hc | hc | hc | hc
    · obtain ⟨_, rfl⟩ := hc; exact entryNotFor _ _ _ (by decide) (by decide)
    · obtain ⟨n, _, rfl⟩ := hc; exact entryNotFor _ _ _ (by decide) (by decide)
    · obtain ⟨_, rfl⟩ := hc; exact entryNotFor _ _ _ (by decide) (by decide)
    · obtain ⟨v, _, rfl⟩ := hc; exact entryNotFor _ _ _ (by decide) (by decide)
    · obtain ⟨v, _, rfl⟩ := hc; exact entryNotFor _ _ _ (by decide) (by decide)
    · obtain ⟨v, _, rfl⟩ := hc; exact entryNotFor _ _ _ (by decide) (by decide)
    · exact absurd hc.1 (by omega)
    · obtain ⟨n, _, rfl⟩ := hc; exact entryNotFor _ _ _ (by decide) (by decide)
    · obtain ⟨_, rfl⟩ := hc; decide
    · obtain ⟨_, rfl⟩ := hc; exact entryNotFor _ _ _ (by decide) (by decide)
    · obtain ⟨n, _, rfl⟩ := hc; exact entryNotFor _ _ _ (by decide) (by decide)
  · intro h e he
    rcases shapes e he with hc | hc | hc | hc | hc | hc | hc | hc | hc | hc | hc
    · obtain ⟨_, rfl⟩ := hc; exact entryNotFor _ _ _ (by decide) (by decide)
    · obtain ⟨n, _, rfl⟩ := hc; exact entryNotFor _ _ _ (by decide) (by decide)
    · obtain ⟨_, rfl⟩ := hc; exact entryNotFor _ _ _ (by decide) (by decide)
    · obtain ⟨v, _, rfl⟩ := hc; exact entryNotFor _ _ _ (by decide) (by decide)
    · obtain ⟨v, _, rfl⟩ := hc; exact entryNotFor _ _ _ (by decide) (by decide)
    · obtain ⟨v, _, rfl⟩ := hc; exact entryNotFor _ _ _ (by decide) (by decide)
    · obtain ⟨_, rfl⟩ := hc; exact entryNotFor _ _ _ (by decide) (by decide)
    · obtain ⟨n, _, rfl⟩ := hc; exact entryNotFor _ _ _ (by decide) (by decide)
    · obtain ⟨_, rfl⟩ := hc; decide
    · exact absurd hc.1 (by omega)
    · obtain ⟨n, _, rfl⟩ := hc; exact entryNotFor _ _ _ (by decide) (by decide)
  · intro n hn
    simp [constraintsList, hn, List.mem_append]
  · intro n hn
    simp [constraintsList, hn, List.mem_append]
  · intro n hn
    simp [constraintsList, hn, List.mem_append]
  · intro hn
    have := by
      simpa using (show ("maxLength: " ++ toString (0 : Nat)) = "maxLength: 0" by decide)
    rw [← this]
    simp [constraintsList, hn, List.mem_append]

theorem formatConstraints_asymmetry_witness :
    ("maxLength: 0" ∈ constraintsList { core0 with maxLength := some 0 })
    ∧ (∀ e ∈ constraintsList { core0 with maxLength := some 0 },
        entryIsFor "minLength" e = false) :=
  ⟨(formatConstraints_asymmetry { core0 with maxLength := some 0 }).2.2.2.2.2.2 rfl,
   (formatConstraints_asymmetry { core0 with maxLength := some 0 }).1 rfl⟩

/-! ## Claim C6: enum rendering (Allowed values) -/

/-- C6 counterexample: a schema with a non-empty enum but no declared
type at all (nil `Type` pointer) renders to the empty string — its
output contains no `Allowed values` line. -/
theorem enum_noType_cex :
    enumNoType.core.enum ≠ []
    ∧ enumNoType.core.type_ = none
    ∧ typesIs enumNoType.core.type_ "object" = false
    ∧ typesIs enumNoType.core.type_ "array" = false
    ∧ FormatSchema (some enumNoType) 0 MaxRecursionDepth = ""
    ∧ strCount "Allowed values" (FormatSchema (some enumNoType) 0 MaxRecursionDepth) = 0 := by
  refine ⟨by decide, rfl, rfl, rfl, by decide, by decide⟩

/-- C6 (amended): in the primitive branch — no composition list, a
present type slice (possibly empty) that is neither exactly `object`
nor exactly `array` — a non-empty enum always produces a terminating
`Allowed values:` line listing the enum values in original order. -/
theorem formatSchema_allowed_values (s : Schema) (ind d : Nat)
    (h1 : s.oneOf = []) (h2 : s.anyOf = []) (h3 : s.allOf = [])
    (ho : typesIs s.core.type_ "object" = false)
    (ha : typesIs s.core.type_ "array" = false)
    (hp : (typesSlice s.core.type_).isSome = true)
    (he : s.core.enum ≠ []) :
    ∃ a, FormatSchema (some s) ind (d + 1)
      = a ++ (indentPfx ind ++ "- Allowed values: " ++ govList s.core.enum ++ "\n") := by
  have hstep : FormatSchema (some s) ind (d + 1) = formatPrimitiveSchema s (indentPfx ind) := by
    simp [FormatSchema, h1, h2, h3, ho, ha, hp]
  refine ⟨indentPfx ind ++ "- Type: `" ++ FormatType (some s) ++ "`\n"
    ++ (if s.core.format ≠ "" then indentPfx ind ++ "- Format: `" ++ s.core.format ++ "`\n" else "")
    ++ (if s.core.nullable then indentPfx ind ++ "- Nullable: `true`\n" else "")
    ++ (match s.core.default_ with
        | some v => indentPfx ind ++ "- Default: `" ++ v.repr ++ "`\n"
        | none => "")
    ++ (match s.core.example_ with
        | some v => indentPfx ind ++ "- Example: `" ++ v.repr ++ "`\n"
        | none => "")
    ++ (let constraints := FormatConstraints (some s)
        if constraints ≠ "" then indentPfx ind ++ "- Constraints: " ++ constraints ++ "\n" else ""), ?_⟩
  rw [hstep]
  show formatPrimitiveSchema s (indentPfx ind) = _
  rw [show formatPrimitiveSchema s (indentPfx ind)
      = (indentPfx ind ++ "- Type: `" ++ FormatType (some s) ++ "`\n"
        ++ (if s.core.format ≠ "" then indentPfx ind ++ "- Format: `" ++ s.core.format ++ "`\n" else "")
        ++ (if s.core.nullable then indentPfx ind ++ "- Nullable: `true`\n" else "")
        ++ (match s.core.default_ with
            | some v => indentPfx ind ++ "- Default: `" ++ v.repr ++ "`\n"
            | none => "")
        ++ (match s.core.example_ with
            | some v => indentPfx ind ++ "- Example: `" ++ v.repr ++ "`\n"
            | none => "")
        ++ (let constraints := FormatConstraints (some s)
            if constraints ≠ "" then indentPfx ind ++ "- Constraints: " ++ constraints ++ "\n" else ""))
        ++ (if s.core.enum ≠ [] then indentPfx ind ++ "- Allowed values: " ++ govList s.core.enum ++ "\n" else "")
      from rfl]
  rw [if_pos he]

theorem formatSchema_allowed_values_witness :
    ∃ a, FormatSchema (some enumStr) 0 (19 + 1)
      = a ++ (indentPfx 0 ++ "- Allowed values: " ++ govList enumStr.core.enum ++ "\n") :=
  formatSchema_allowed_values enumStr 0 19 rfl rfl rfl rfl rfl rfl (by decide)

/-! ## Claim C7: method filtering -/

/-- C7: an operation of the iteration sequence is rendered exactly when
the filter is empty or case-sensitively equal to its method string; a
skipped operation contributes nothing.  Concretely, a GET/PUT/DELETE
path item filtered by `"GET"` renders only the `## GET` heading, and
the empty filter renders all three. -/
theorem writeOperations_method_filter :
    (∀ path ops methodFilter,
      writeOperations path ops methodFilter
        = String.join ((ops.filter (fun e => methodFilter = "" || e.1 = methodFilter)).map
            (fun e => writeOperation e.1 path e.2)))
    ∧ strCount "## GET /x" (GenerateMarkdown doc0 "/x" (some piGPD) "GET" (definedOps piGPD)) = 1
    ∧ strCount "## PUT /x" (GenerateMarkdown doc0 "/x" (some piGPD) "GET" (definedOps piGPD)) = 0
    ∧ strCount "## DELETE /x" (GenerateMarkdown doc0 "/x" (some piGPD) "GET" (definedOps piGPD)) = 0
    ∧ strCount "## GET /x" (GenerateMarkdown doc0 "/x" (some piGPD) "" (definedOps piGPD)) = 1
    ∧ strCount "## PUT /x" (GenerateMarkdown doc0 "/x" (some piGPD) "" (definedOps piGPD)) = 1
    ∧ strCount "## DELETE /x" (GenerateMarkdown doc0 "/x" (some piGPD) "" (definedOps piGPD)) = 1 := by
  refine ⟨?_, by decide, by decide, by decide, by decide, by decide, by decide⟩
  intro path ops methodFilter
  induction ops with
  | nil => rfl
  | cons x xs ih =>
    rw [show writeOperations path (x :: xs) methodFilter
        = (if methodFilter ≠ "" && x.1 ≠ methodFilter then ""
           else writeOperation x.1 path x.2)
          ++ writeOperations path xs methodFilter from by
          simp [writeOperations, join_cons]]
    rw [ih, List.filter_cons]
    by_cases hf : methodFilter = "" <;> by_cases hx : x.1 = methodFilter <;>
      simp [hf, hx, join_cons]

/-! ## Claim C8: JSON marshalling failure is recovered locally -/

set_option maxRecDepth 8192 in
/-- C8: when JSON marshalling of an example value fails, the example is
emitted as a plain fenced block (no `json` language tag) containing the
value's `%v` rendering, and the failure never propagates: an operation
holding such an example still renders all following sections
(responses, security, separator) in full. -/
theorem writeExamples_marshal_fallback :
    (∀ nm summ (v : GoValue), v.json = none →
      writeExampleEntry nm (some { summary := summ, value := some v })
        = (if summ ≠ "" then "*" ++ summ ++ "* (`" ++ nm ++ "`):\n\n"
           else "*Example: `" ++ nm ++ "`*:\n\n")
          ++ ("```\n" ++ v.repr ++ "\n```\n\n"))
    ∧ writeOperation "GET" "/items" cexFailOp
        = "## GET /items\n\n### Request Body\n\n**Required:** (required)\n\n**Content-Type:** `application/json`\n\n\n**Examples:**\n\n*Example: `bad`*:\n\n```\nfunc()\n```\n\n\n### Responses\n\n#### 200\n\nOK\n\n\n### Security\n\n- **api_key**\n\n---\n\n" := by
  constructor
  · intro nm summ v hv
    simp [writeExampleEntry, FormatJSON, hv, govOpt]
  · decide

theorem writeExamples_marshal_fallback_witness :
    writeExampleEntry "bad" (some { summary := "", value := some vBad })
      = (if ("" : String) ≠ "" then "*" ++ "" ++ "* (`" ++ "bad" ++ "`):\n\n"
         else "*Example: `" ++ "bad" ++ "`*:\n\n")
        ++ ("```\n" ++ vBad.repr ++ "\n```\n\n") :=
  writeExamples_marshal_fallback.1 "bad" "" vBad rfl

/-! ## Claim C9: absent path item and empty path item -/

/-- C9: a nil path item makes `GenerateMarkdown` return the empty
string; a non-nil path item with no operations renders the header
alone — and the header of the test document holds the level-1 endpoint
heading and no `## ` level-2 heading. -/
theorem generateMarkdown_empty_inputs :
    (∀ doc path methodFilter ops, GenerateMarkdown doc path none methodFilter ops = "")
    ∧ (∀ doc path methodFilter (pi : PathItem) ops,
        definedOps pi = [] → ops.Perm (definedOps pi) →
        GenerateMarkdown doc path (some pi) methodFilter ops = writeHeader doc path)
    ∧ writeHeader docC9 "/items" = "# API Endpoint: /items\n\n**API:** Test API 1.0.0\n\n"
    ∧ strCount "## " (writeHeader docC9 "/items") = 0
    ∧ strCount "# API Endpoint: /items" (writeHeader docC9 "/items") = 1 := by
  refine ⟨fun doc path methodFilter ops => rfl, ?_, by decide, by decide, by decide⟩
  intro doc path methodFilter pi ops hdef hperm
  rw [hdef] at hperm
  rw [List.perm_nil.mp hperm]
  simp [GenerateMarkdown, writeOperations, String.join, String.append_empty]

theorem generateMarkdown_empty_inputs_witness :
    GenerateMarkdown docC9 "/items" (some piEmpty) "" [] = writeHeader docC9 "/items" :=
  generateMarkdown_empty_inputs.2.1 docC9 "/items" "" piEmpty [] rfl (List.Perm.refl _)

/-! ## Claim C10: nil example value renders as an empty JSON object -/

/-- C10: an example object whose value is nil is never dropped and never
treated as a marshalling failure: it renders a ```` ```json ````
block containing exactly `{}` (both at the entry level and through
`writeExamples` on a map containing it). -/
theorem writeExamples_nil_value :
    (∀ nm summ, writeExampleEntry nm (some { summary := summ, value := none })
        = (if summ ≠ "" then "*" ++ summ ++ "* (`" ++ nm ++ "`):\n\n"
           else "*Example: `" ++ nm ++ "`*:\n\n")
          ++ ("```json\n" ++ "{}" ++ "\n```\n\n"))
    ∧ (∀ nm, writeExamples [(nm, some { summary := "", value := none })]
        = HeaderExamples ++ ("*Example: `" ++ nm ++ "`*:\n\n" ++ ("```json\n" ++ "{}" ++ "\n```\n\n")))
    ∧ FormatJSON none = some "{}" := by
  refine ⟨?_, ?_, rfl⟩
  · intro nm summ
    simp [writeExampleEntry, FormatJSON]
  · intro nm
    simp [writeExamples, getSortedExampleNames, sortedKeys, List.insertionSort,
      List.orderedInsert, List.lookup, writeExampleEntry, FormatJSON,
      join_singleton, String.append_assoc]
    rw [show ("`*:\n\n" ++ "```json\n{}\n```\n\n" : String) = "`*:\n\n```json\n{}\n```\n\n" from by decide]

/-! ## Claim C1: determinism up to map iteration order — infrastructure -/

theorem sortStrings_eq_of_perm {l₁ l₂ : List String} (h : l₁.Perm l₂) :
    List.insertionSort (· ≤ ·) l₁ = List.insertionSort (· ≤ ·) l₂ := by
  haveI : IsAntisymm String (· ≤ ·) := ⟨fun a b => le_antisymm⟩
  haveI : IsTotal String (· ≤ ·) := ⟨le_total⟩
  haveI : IsTrans String (· ≤ ·) := ⟨fun a b c => le_trans⟩
  exact List.eq_of_perm_of_sorted
    ((List.perm_insertionSort _ _).trans (h.trans (List.perm_insertionSort _ _).symm))
    (List.sorted_insertionSort _ _) (List.sorted_insertionSort _ _)

theorem forall2_map_fst {α β : Type} {R : α → β → Prop}
    {l : List (String × α)} {l₂ : List (String × β)}
    (h : List.Forall₂ (PairRel R) l l₂) : l.map Prod.fst = l₂.map Prod.fst := by
  induction h with
  | nil => rfl
  | cons hab _ ih => simp [ih, hab.1]

theorem mapRel_sortedKeys {α β : Type} {R : α → β → Prop}
    {l₁ : List (String × α)} {l₂ : List (String × β)} (h : MapRel R l₁ l₂) :
    sortedKeys l₁ = sortedKeys l₂ := by
  obtain ⟨l, hperm, hf⟩ := h
  unfold sortedKeys
  have h1 : (l₁.map Prod.fst).Perm (l₂.map Prod.fst) := by
    rw [← forall2_map_fst hf]
    exact hperm.map _
  exact sortStrings_eq_of_perm h1

theorem mapRel_isEmpty {α β : Type} {R : α → β → Prop}
    {l₁ : List (String × α)} {l₂ : List (String × β)} (h : MapRel R l₁ l₂) :
    l₁.isEmpty = l₂.isEmpty := by
  obtain ⟨l, hperm, hf⟩ := h
  have h1 := hperm.length_eq
  have h2 := hf.length_eq
  cases l₁ <;> cases l₂ <;> simp_all

theorem lookup_mem {α : Type} : ∀ {l : List (String × α)} {k : String} {v : α},
    l.lookup k = some v → (k, v) ∈ l := by
  intro l
  induction l with
  | nil => intro k v h; simp [List.lookup] at h
  | cons x t ih =>
    intro k v h
    rw [List.lookup] at h
    rcases hkx : (k == x.1) with _ | _
    · rw [hkx] at h
      exact List.mem_cons_of_mem _ (ih h)
    · rw [hkx] at h
      have hk : k = x.1 := by simpa using hkx
      have hv : v = x.2 := by simpa using h.symm
      subst hk
      rw [hv]
      exact List.mem_cons_self _ _

theorem lookup_eq_of_perm {α : Type} {l₁ l₂ : List (String × α)}
    (h : l₁.Perm l₂) (hnd : (l₁.map Prod.fst).Nodup) (k : String) :
    l₁.lookup k = l₂.lookup k := by
  induction h with
  | nil => rfl
  | cons x h ih =>
    simp only [List.map_cons, List.nodup_cons] at hnd
    rw [List.lookup, List.lookup]
    cases k == x.1 with
    | true => rfl
    | false => exact ih hnd.2
  | swap x y l =>
    simp only [List.map_cons, List.nodup_cons, List.mem_cons, List.mem_map] at hnd
    rw [List.lookup, List.lookup, List.lookup, List.lookup]
    rcases hky : (k == y.1) with _ | _ <;> rcases hkx : (k == x.1) with _ | _ <;> simp_all
  | trans h₁ h₂ ih₁ ih₂ =>
    rw [ih₁ hnd, ih₂ (((h₁.map Prod.fst).nodup_iff).mp hnd)]

theorem lookup_forall2 {α β : Type} {R : α → β → Prop}
    {l : List (String × α)} {l₂ : List (String × β)}
    (hf : List.Forall₂ (PairRel R) l l₂) (k : String) :
    OptRel R (l.lookup k) (l₂.lookup k) := by
  induction hf with
  | nil => exact trivial
  | cons hab _ ih =>
    rw [List.lookup, List.lookup, hab.1]
    cases k == _ with
    | true => exact hab.2
    | false => exact ih

theorem mapRel_lookup {α β : Type} {R : α → β → Prop}
    {l₁ : List (String × α)} {l₂ : List (String × β)}
    (h : MapRel R l₁ l₂) (hnd : (l₁.map Prod.fst).Nodup) (k : String) :
    OptRel R (l₁.lookup k) (l₂.lookup k) := by
  obtain ⟨l, hperm, hf⟩ := h
  rw [lookup_eq_of_perm hperm hnd k]
  exact lookup_forall2 hf k

/-- Congruence for a sorted-keys-then-lookup rendering loop: same keys,
pointwise equal bodies. -/
theorem renderSorted_congr {α β : Type} {R : α → β → Prop}
    {l₁ : List (String × α)} {l₂ : List (String × β)} (h : MapRel R l₁ l₂)
    (f : String → Option α → String) (g : String → Option β → String)
    (hfg : ∀ k, f k (l₁.lookup k) = g k (l₂.lookup k)) :
    String.join ((sortedKeys l₁).map (fun k => f k (l₁.lookup k)))
      = String.join ((sortedKeys l₂).map (fun k => g k (l₂.lookup k))) := by
  rw [← mapRel_sortedKeys h]
  exact congrArg _ (List.map_congr_left (fun k _ => hfg k))

theorem sequiv_isSome : ∀ (d : Nat) (a b : Option Schema), SEquiv d a b → a.isSome = b.isSome := by
  intro d a b h
  cases d <;> cases a <;> cases b <;> simp_all [SEquiv]

theorem forall2_isEmpty {α β : Type} {R : α → β → Prop} {l₁ : List α} {l₂ : List β}
    (h : List.Forall₂ R l₁ l₂) : l₁.isEmpty = l₂.isEmpty := by
  cases h <;> rfl

/-- The case split of `FormatSchema` at a positive budget, as an
explicit equation. -/
theorem formatSchema_succ (s : Schema) (ind d : Nat) :
    FormatSchema (some s) ind (d + 1)
      = (if !s.oneOf.isEmpty then
           formatSchemaComposition (fun s2 i2 => FormatSchema s2 i2 d)
             "oneOf" "one of the following" s.oneOf (indentPfx ind) ind
         else if !s.anyOf.isEmpty then
           formatSchemaComposition (fun s2 i2 => FormatSchema s2 i2 d)
             "anyOf" "any of the following" s.anyOf (indentPfx ind) ind
         else if !s.allOf.isEmpty then
           formatSchemaComposition (fun s2 i2 => FormatSchema s2 i2 d)
             "allOf" "all of the following" s.allOf (indentPfx ind) ind
         else if typesIs s.core.type_ "object" then
           formatObjectSchema (fun s2 i2 => FormatSchema s2 i2 d) s (indentPfx ind) ind
         else if typesIs s.core.type_ "array" then
           formatArraySchema (fun s2 i2 => FormatSchema s2 i2 d) s (indentPfx ind) ind
         else if (typesSlice s.core.type_).isSome then
           formatPrimitiveSchema s (indentPfx ind)
         else "") := rfl

theorem compJoin_congr (d ind : Nat) (pfx : String) :
    ∀ {xs ys : List (Option Schema)}, List.Forall₂ (SEquiv d) xs ys →
    (∀ o ∈ xs, WfS d o) →
    (∀ a b i, SEquiv d a b → WfS d a → FormatSchema a i d = FormatSchema b i d) →
    ∀ n, String.join ((List.enumFrom n xs).map (fun e =>
        pfx ++ "  - Option " ++ toString (e.1 + 1) ++ ":\n"
        ++ match e.2 with
           | some v => FormatSchema (some v) (ind + 2) d
           | none => ""))
      = String.join ((List.enumFrom n ys).map (fun e =>
        pfx ++ "  - Option " ++ toString (e.1 + 1) ++ ":\n"
        ++ match e.2 with
           | some v => FormatSchema (some v) (ind + 2) d
           | none => "")) := by
  intro xs ys hf
  induction hf with
  | nil => intro _ _ n; rfl
  | @cons a b xs ys hab hf ih =>
    intro hwf hrec n
    rw [List.enumFrom_cons, List.enumFrom_cons, List.map_cons, List.map_cons,
      join_cons, join_cons,
      ih (fun o ho => hwf o (List.mem_cons_of_mem _ ho)) hrec (n + 1)]
    cases a with
    | none =>
      cases b with
      | none => rfl
      | some vb => exact absurd (sequiv_isSome d _ _ hab) (by simp)
    | some va =>
      cases b with
      | none => exact absurd (sequiv_isSome d _ _ hab) (by simp)
      | some vb =>
        have h := hrec (some va) (some vb) (ind + 2) hab (hwf _ (List.mem_cons_self _ _))
        simp [h]

theorem comp_congr (d : Nat)
    (hrec : ∀ a b i, SEquiv d a b → WfS d a → FormatSchema a i d = FormatSchema b i d)
    {xs ys : List (Option Schema)} (hf : List.Forall₂ (SEquiv d) xs ys)
    (hwf : ∀ o ∈ xs, WfS d o) (kw descr pfx : String) (ind : Nat) :
    formatSchemaComposition (fun s2 i2 => FormatSchema s2 i2 d) kw descr xs pfx ind
      = formatSchemaComposition (fun s2 i2 => FormatSchema s2 i2 d) kw descr ys pfx ind := by
  simp only [formatSchemaComposition, List.enum]
  rw [compJoin_congr d ind pfx hf hwf hrec 0]

theorem formatType_core {c₁ c₂ : Schema} (h : c₁.core = c₂.core) :
    FormatType (some c₁) = FormatType (some c₂) := by
  simp only [FormatType, h]

theorem formatConstraints_core {c₁ c₂ : Schema} (h : c₁.core = c₂.core) :
    FormatConstraints (some c₁) = FormatConstraints (some c₂) := by
  simp only [FormatConstraints, h]

theorem objProp_congr (d ind : Nat) (pfx : String) (reqMap : String → Bool)
    (hrec : ∀ a b i, SEquiv d a b → WfS d a → FormatSchema a i d = FormatSchema b i d)
    (k : String) {v₁ v₂ : Option (Option Schema)} (hv : OptRel (PropR d) v₁ v₂)
    (hwfv : ∀ c, v₁ = some (some c) → WfS d (some c) ∧ WfS d c.items) :
    formatObjectProperty (fun s2 i2 => FormatSchema s2 i2 d) reqMap pfx ind k v₁
      = formatObjectProperty (fun s2 i2 => FormatSchema s2 i2 d) reqMap pfx ind k v₂ := by
  cases v₁ with
  | none =>
    cases v₂ with
    | none => rfl
    | some o₂ => exact absurd hv (by simp [OptRel])
  | some o₁ =>
    cases v₂ with
    | none => exact absurd hv (by simp [OptRel])
    | some o₂ =>
      have hp : PropR d o₁ o₂ := hv
      cases o₁ with
      | none =>
        cases o₂ with
        | none => rfl
        | some c₂ => exact absurd hp (by simp [PropR])
      | some c₁ =>
        cases o₂ with
        | none => exact absurd hp (by simp [PropR])
        | some c₂ =>
          simp only [PropR] at hp
          obtain ⟨hcore, hpe, hse, hsi⟩ := hp
          obtain ⟨hwc, hwi⟩ := hwfv c₁ rfl
          have ht := formatType_core hcore
          have hc := formatConstraints_core hcore
          have hrec1 : FormatSchema (some c₁) (ind + 2) d = FormatSchema (some c₂) (ind + 2) d :=
            hrec _ _ _ hse hwc
          have hitemsEq : (match c₁.items with
              | some item => pfx ++ "    - Items:\n" ++ FormatSchema (some item) (ind + 3) d
              | none => "")
              = (match c₂.items with
              | some item => pfx ++ "    - Items:\n" ++ FormatSchema (some item) (ind + 3) d
              | none => "") := by
            have hs := sequiv_isSome d _ _ hsi
            cases hi1 : c₁.items with
            | none =>
              cases hi2 : c₂.items with
              | none => rfl
              | some it₂ => rw [hi1, hi2] at hs; simp at hs
            | some it₁ =>
              cases hi2 : c₂.items with
              | none => rw [hi1, hi2] at hs; simp at hs
              | some it₂ =>
                rw [hi1, hi2] at hsi
                rw [hi1] at hwi
                have h3 := hrec _ _ (ind + 3) hsi hwi
                simp [h3]
          simp only [formatObjectProperty]
          rw [← hcore, ← hpe, ← ht, ← hc, ← hrec1, ← hitemsEq]

theorem formatObjectSchema_congr (d ind : Nat) (s₁ s₂ : Schema)
    (hcore : s₁.core = s₂.core)
    (hprops : MapRel (PropR d) s₁.properties s₂.properties)
    (hnd : (s₁.properties.map Prod.fst).Nodup)
    (hwfprops : ∀ p ∈ s₁.properties,
      match p.2 with
      | none => True
      | some c => WfS d (some c) ∧ WfS d c.items)
    (hrec : ∀ a b i, SEquiv d a b → WfS d a → FormatSchema a i d = FormatSchema b i d) :
    formatObjectSchema (fun s2 i2 => FormatSchema s2 i2 d) s₁ (indentPfx ind) ind
      = formatObjectSchema (fun s2 i2 => FormatSchema s2 i2 d) s₂ (indentPfx ind) ind := by
  simp only [formatObjectSchema, getSortedPropertyNames]
  rw [← hcore, ← mapRel_isEmpty hprops]
  rcases hpe : s₁.properties.isEmpty with _ | _
  · simp only [Bool.false_eq_true, if_false]
    congr 1
    congr 1
    exact renderSorted_congr hprops _ _ (fun k =>
      objProp_congr d ind (indentPfx ind) (buildRequiredMap s₁.core.required) hrec k
        (mapRel_lookup hprops hnd k)
        (fun c hcl => by
          have hm := lookup_mem hcl
          have := hwfprops _ hm
          exact this))
  · rfl

theorem formatArraySchema_congr (d ind : Nat) (s₁ s₂ : Schema)
    (hcore : s₁.core = s₂.core)
    (hitems : SEquiv d s₁.items s₂.items)
    (hwfitems : WfS d s₁.items)
    (hrec : ∀ a b i, SEquiv d a b → WfS d a → FormatSchema a i d = FormatSchema b i d) :
    formatArraySchema (fun s2 i2 => FormatSchema s2 i2 d) s₁ (indentPfx ind) ind
      = formatArraySchema (fun s2 i2 => FormatSchema s2 i2 d) s₂ (indentPfx ind) ind := by
  have hc := formatConstraints_core hcore
  have hitemsEq : (match s₁.items with
      | some item => indentPfx ind ++ "- Items:\n" ++ FormatSchema (some item) (ind + 1) d
      | none => "")
      = (match s₂.items with
      | some item => indentPfx ind ++ "- Items:\n" ++ FormatSchema (some item) (ind + 1) d
      | none => "") := by
    have hs := sequiv_isSome d _ _ hitems
    cases hi1 : s₁.items with
    | none =>
      cases hi2 : s₂.items with
      | none => rfl
      | some it₂ => rw [hi1, hi2] at hs; simp at hs
    | some it₁ =>
      cases hi2 : s₂.items with
      | none => rw [hi1, hi2] at hs; simp at hs
      | some it₂ =>
        rw [hi1, hi2] at hitems
        rw [hi1] at hwfitems
        have h3 := hrec _ _ (ind + 1) hitems hwfitems
        simp [h3]
  simp only [formatArraySchema]
  rw [← hcore, ← hc, ← hitemsEq]

theorem formatPrimitiveSchema_congr {s₁ s₂ : Schema} (hcore : s₁.core = s₂.core) (pfx : String) :
    formatPrimitiveSchema s₁ pfx = formatPrimitiveSchema s₂ pfx := by
  have ht := formatType_core hcore
  have hc := formatConstraints_core hcore
  simp only [formatPrimitiveSchema]
  rw [← hcore, ← ht, ← hc]

/-- `FormatSchema` renders equivalent presentations identically: the
iteration order of every property map within the depth budget is
invisible in the output. -/
theorem formatSchema_congr : ∀ (d : Nat) (a b : Option Schema) (ind : Nat),
    SEquiv d a b → WfS d a → FormatSchema a ind d = FormatSchema b ind d := by
  intro d
  induction d with
  | zero =>
    intro a b ind he _
    cases a <;> cases b <;> first | rfl | simp_all [SEquiv]
  | succ d ih =>
    intro a b ind he hwf
    cases a with
    | none =>
      cases b with
      | none => rfl
      | some s₂ => exact absurd he (by simp [SEquiv])
    | some s₁ =>
      cases b with
      | none => exact absurd he (by simp [SEquiv])
      | some s₂ =>
        simp only [SEquiv] at he
        obtain ⟨hcore, hprops, hitems, hone, hany, hall⟩ := he
        simp only [WfS] at hwf
        obtain ⟨hnd, hwfprops, hwfitems, hwfone, hwfany, hwfall⟩ := hwf
        have hrec : ∀ a b i, SEquiv d a b → WfS d a → FormatSchema a i d = FormatSchema b i d :=
          fun a b i h1 h2 => ih a b i h1 h2
        rw [formatSchema_succ, formatSchema_succ,
          ← forall2_isEmpty hone, ← forall2_isEmpty hany, ← forall2_isEmpty hall, ← hcore]
        rcases h1 : s₁.oneOf.isEmpty with _ | _
        · simp only [h1, Bool.not_false, if_true]
          exact comp_congr d hrec hone hwfone _ _ _ ind
        · simp only [h1, Bool.not_true, Bool.false_eq_true, if_false]
          rcases h2 : s₁.anyOf.isEmpty with _ | _
          · simp only [h2, Bool.not_false, if_true]
            exact comp_congr d hrec hany hwfany _ _ _ ind
          · simp only [h2, Bool.not_true, Bool.false_eq_true, if_false]
            rcases h3 : s₁.allOf.isEmpty with _ | _
            · simp only [h3, Bool.not_false, if_true]
              exact comp_congr d hrec hall hwfall _ _ _ ind
            · simp only [h3, Bool.not_true, Bool.false_eq_true, if_false]
              cases h4 : typesIs s₁.core.type_ "object" with
              | true =>
                simp only [h4, if_true]
                exact formatObjectSchema_congr d ind s₁ s₂ hcore hprops hnd hwfprops hrec
              | false =>
                simp only [h4, Bool.false_eq_true, if_false]
                cases h5 : typesIs s₁.core.type_ "array" with
                | true =>
                  simp only [h5, if_true]
                  exact formatArraySchema_congr d ind s₁ s₂ hcore hitems hwfitems hrec
                | false =>
                  simp only [h5, Bool.false_eq_true, if_false]
                  cases h6 : (typesSlice s₁.core.type_).isSome with
                  | true =>
                    simp only [h6, if_true]
                    exact formatPrimitiveSchema_congr hcore _
                  | false =>
                    simp only [h6, Bool.false_eq_true, if_false]

/-! ## Claim C1: operation-level congruences -/

theorem writeParameterEntry_congr {p₁ p₂ : Option Param} (h : ParamRel p₁ p₂) :
    writeParameterEntry p₁ = writeParameterEntry p₂ := by
  cases p₁ with
  | none =>
    cases p₂ with
    | none => rfl
    | some q => exact absurd h (by simp [ParamRel])
  | some q₁ =>
    cases p₂ with
    | none => exact absurd h (by simp [ParamRel])
    | some q₂ =>
      simp only [ParamRel] at h
      obtain ⟨hn, hi, hr, hd, hde, hs⟩ := h
      have hschema : (match q₁.schema with
          | none => ""
          | some schema =>
            "  - Type: `" ++ FormatType (some schema) ++ "`\n"
            ++ (if schema.core.format ≠ "" then "  - Format: `" ++ schema.core.format ++ "`\n" else "")
            ++ (match schema.core.default_ with
                | some v => "  - Default: `" ++ v.repr ++ "`\n"
                | none => "")
            ++ (match schema.core.example_ with
                | some v => "  - Example: `" ++ v.repr ++ "`\n"
                | none => "")
            ++ (let constraints := FormatConstraints (some schema)
                if constraints ≠ "" then "  - Constraints: " ++ constraints ++ "\n" else "")
            ++ (if !schema.core.enum.isEmpty then "  - Allowed values: " ++ govList schema.core.enum ++ "\n" else ""))
          = (match q₂.schema with
          | none => ""
          | some schema =>
            "  - Type: `" ++ FormatType (some schema) ++ "`\n"
            ++ (if schema.core.format ≠ "" then "  - Format: `" ++ schema.core.format ++ "`\n" else "")
            ++ (match schema.core.default_ with
                | some v => "  - Default: `" ++ v.repr ++ "`\n"
                | none => "")
            ++ (match schema.core.example_ with
                | some v => "  - Example: `" ++ v.repr ++ "`\n"
                | none => "")
            ++ (let constraints := FormatConstraints (some schema)
                if constraints ≠ "" then "  - Constraints: " ++ constraints ++ "\n" else "")
            ++ (if !schema.core.enum.isEmpty then "  - Allowed values: " ++ govList schema.core.enum ++ "\n" else "")) := by
        cases hs1 : q₁.schema with
        | none =>
          cases hs2 : q₂.schema with
          | none => rfl
          | some sch₂ => rw [hs1, hs2] at hs; exact absurd hs (by simp [OptRel])
        | some sch₁ =>
          cases hs2 : q₂.schema with
          | none => rw [hs1, hs2] at hs; exact absurd hs (by simp [OptRel])
          | some sch₂ =>
            rw [hs1, hs2] at hs
            have hcore : sch₁.core = sch₂.core := hs
            simp only [formatType_core hcore, formatConstraints_core hcore, hcore]
      simp only [writeParameterEntry]
      rw [hn, hi, hr, hd, hde, hschema]

theorem writeParameters_congr {ps₁ ps₂ : List (Option Param)}
    (h : List.Forall₂ ParamRel ps₁ ps₂) :
    writeParameters ps₁ = writeParameters ps₂ := by
  have hjoin : String.join (ps₁.map writeParameterEntry)
      = String.join (ps₂.map writeParameterEntry) := by
    induction h with
    | nil => rfl
    | cons hab _ ih =>
      rw [List.map_cons, List.map_cons, join_cons, join_cons,
        writeParameterEntry_congr hab, ih]
  unfold writeParameters
  rw [← forall2_isEmpty h, hjoin]

theorem writeExamples_congr {e₁ e₂ : List (String × Option ExampleObj)}
    (h : MapRel (fun a b : Option ExampleObj => a = b) e₁ e₂)
    (hnd : (e₁.map Prod.fst).Nodup) :
    writeExamples e₁ = writeExamples e₂ := by
  unfold writeExamples
  rw [← mapRel_isEmpty h]
  rcases hp : e₁.isEmpty with _ | _
  · have hjoin := renderSorted_congr h
      (fun k v => writeExampleEntry k (v.getD none))
      (fun k v => writeExampleEntry k (v.getD none))
      (fun k => by
        have := mapRel_lookup h hnd k
        cases hl1 : e₁.lookup k with
        | none =>
          cases hl2 : e₂.lookup k with
          | none => rfl
          | some b => rw [hl1, hl2] at this; exact absurd this (by simp [OptRel])
        | some a =>
          cases hl2 : e₂.lookup k with
          | none => rw [hl1, hl2] at this; exact absurd this (by simp [OptRel])
          | some b =>
            rw [hl1, hl2] at this
            have hab : a = b := this
            rw [hab])
    simp only [Bool.false_eq_true, if_false]
    exact congrArg (HeaderExamples ++ ·) hjoin
  · rfl

theorem writeContentEntry_congr (ct : String) {m₁ m₂ : Option (Option MediaType)}
    (h : OptRel MTRel m₁ m₂)
    (hwf : ∀ m, m₁ = some m → WfMT m) :
    writeContentEntry ct m₁ = writeContentEntry ct m₂ := by
  cases m₁ with
  | none =>
    cases m₂ with
    | none => rfl
    | some o₂ => exact absurd h (by simp [OptRel])
  | some o₁ =>
    cases m₂ with
    | none => exact absurd h (by simp [OptRel])
    | some o₂ =>
      have hm : MTRel o₁ o₂ := h
      cases o₁ with
      | none =>
        cases o₂ with
        | none => rfl
        | some mt₂ => exact absurd hm (by simp [MTRel])
      | some mt₁ =>
        cases o₂ with
        | none => exact absurd hm (by simp [MTRel])
        | some mt₂ =>
          simp only [MTRel] at hm
          obtain ⟨hsch, hex⟩ := hm
          have hw : WfMT (some mt₁) := hwf _ rfl
          simp only [WfMT] at hw
          obtain ⟨hws, hwnd⟩ := hw
          have hschema : (match mt₁.schema with
              | some schema => HeaderSchema ++ FormatSchema (some schema) 0 MaxRecursionDepth
              | none => "")
              = (match mt₂.schema with
              | some schema => HeaderSchema ++ FormatSchema (some schema) 0 MaxRecursionDepth
              | none => "") := by
            have hsome := sequiv_isSome _ _ _ hsch
            cases hs1 : mt₁.schema with
            | none =>
              cases hs2 : mt₂.schema with
              | none => rfl
              | some sch₂ => rw [hs1, hs2] at hsome; simp at hsome
            | some sch₁ =>
              cases hs2 : mt₂.schema with
              | none => rw [hs1, hs2] at hsome; simp at hsome
              | some sch₂ =>
                rw [hs1, hs2] at hsch
                rw [hs1] at hws
                have h9 := formatSchema_congr MaxRecursionDepth _ _ 0 hsch hws
                simp [h9]
          simp only [writeContentEntry]
          rw [hschema, writeExamples_congr hex hwnd]

theorem writeResponseHeaders_congr {h₁ h₂ : List (String × Option RespHeader)}
    (h : MapRel HdrRel h₁ h₂) (hnd : (h₁.map Prod.fst).Nodup) :
    writeResponseHeaders h₁ = writeResponseHeaders h₂ := by
  unfold writeResponseHeaders
  rw [← mapRel_isEmpty h]
  rcases hp : h₁.isEmpty with _ | _
  · have hjoin := renderSorted_congr h
      (fun k v => match v.getD none with
        | none => ""
        | some header =>
          "- `" ++ k ++ "`"
          ++ (if header.description ≠ "" then " - " ++ header.description else "")
          ++ "\n"
          ++ (match header.schema with
              | some s => "  - Type: `" ++ FormatType (some s) ++ "`\n"
              | none => ""))
      (fun k v => match v.getD none with
        | none => ""
        | some header =>
          "- `" ++ k ++ "`"
          ++ (if header.description ≠ "" then " - " ++ header.description else "")
          ++ "\n"
          ++ (match header.schema with
              | some s => "  - Type: `" ++ FormatType (some s) ++ "`\n"
              | none => ""))
      (fun k => by
        have hrel := mapRel_lookup h hnd k
        cases hl1 : h₁.lookup k with
        | none =>
          cases hl2 : h₂.lookup k with
          | none => rfl
          | some b => rw [hl1, hl2] at hrel; exact absurd hrel (by simp [OptRel])
        | some a =>
          cases hl2 : h₂.lookup k with
          | none => rw [hl1, hl2] at hrel; exact absurd hrel (by simp [OptRel])
          | some b =>
            rw [hl1, hl2] at hrel
            have hab : HdrRel a b := hrel
            cases a with
            | none =>
              cases b with
              | none => rfl
              | some hd₂ => exact absurd hab (by simp [HdrRel])
            | some hd₁ =>
              cases b with
              | none => exact absurd hab (by simp [HdrRel])
              | some hd₂ =>
                simp only [HdrRel] at hab
                obtain ⟨hdd, hds⟩ := hab
                have hsch : (match hd₁.schema with
                    | some s => "  - Type: `" ++ FormatType (some s) ++ "`\n"
                    | none => "")
                    = (match hd₂.schema with
                    | some s => "  - Type: `" ++ FormatType (some s) ++ "`\n"
                    | none => "") := by
                  cases hs1 : hd₁.schema with
                  | none =>
                    cases hs2 : hd₂.schema with
                    | none => rfl
                    | some sch₂ => rw [hs1, hs2] at hds; exact absurd hds (by simp [OptRel])
                  | some sch₁ =>
                    cases hs2 : hd₂.schema with
                    | none => rw [hs1, hs2] at hds; exact absurd hds (by simp [OptRel])
                    | some sch₂ =>
                      rw [hs1, hs2] at hds
                      have hcc : sch₁.core = sch₂.core := hds
                      simp [formatType_core hcc]
                simp only [Option.getD]
                rw [hdd, hsch])
    simp only [Bool.false_eq_true, if_false]
    exact congrArg (fun j => HeaderHeaders ++ j ++ "\n") hjoin
  · rfl

theorem contentJoin_congr {c₁ c₂ : List (String × Option MediaType)}
    (h : MapRel MTRel c₁ c₂) (hnd : (c₁.map Prod.fst).Nodup)
    (hwf : ∀ e ∈ c₁, WfMT e.2) :
    String.join ((getSortedContentTypes c₁).map (fun contentType =>
      writeContentEntry contentType (c₁.lookup contentType)))
      = String.join ((getSortedContentTypes c₂).map (fun contentType =>
      writeContentEntry contentType (c₂.lookup contentType))) := by
  exact renderSorted_congr h _ _ (fun k =>
    writeContentEntry_congr k (mapRel_lookup h hnd k)
      (fun m hm => by
        have := lookup_mem hm
        exact hwf _ this))

theorem writeResponseEntry_congr (status : String) {r₁ r₂ : Option (Option Response)}
    (h : OptRel RespRel r₁ r₂)
    (hwf : ∀ r, r₁ = some r → WfResp r) :
    writeResponseEntry status r₁ = writeResponseEntry status r₂ := by
  cases r₁ with
  | none =>
    cases r₂ with
    | none => rfl
    | some o₂ => exact absurd h (by simp [OptRel])
  | some o₁ =>
    cases r₂ with
    | none => exact absurd h (by simp [OptRel])
    | some o₂ =>
      have hr : RespRel o₁ o₂ := h
      cases o₁ with
      | none =>
        cases o₂ with
        | none => rfl
        | some resp₂ => exact absurd hr (by simp [RespRel])
      | some resp₁ =>
        cases o₂ with
        | none => exact absurd hr (by simp [RespRel])
        | some resp₂ =>
          simp only [RespRel] at hr
          obtain ⟨hdd, hhdrs, hcont⟩ := hr
          have hw : WfResp (some resp₁) := hwf _ rfl
          simp only [WfResp] at hw
          obtain ⟨hwh, hwc, hwfc⟩ := hw
          simp only [writeResponseEntry]
          rw [hdd, writeResponseHeaders_congr hhdrs hwh,
            contentJoin_congr hcont hwc hwfc]

theorem writeRequestBody_congr {rb₁ rb₂ : Option RequestBody}
    (h : OptRel (fun r₁ r₂ : RequestBody =>
      r₁.description = r₂.description ∧ r₁.required = r₂.required
      ∧ MapRel MTRel r₁.content r₂.content) rb₁ rb₂)
    (hwf : ∀ rb, rb₁ = some rb → (rb.content.map Prod.fst).Nodup ∧ ∀ e ∈ rb.content, WfMT e.2) :
    writeRequestBody rb₁ = writeRequestBody rb₂ := by
  cases rb₁ with
  | none =>
    cases rb₂ with
    | none => rfl
    | some b₂ => exact absurd h (by simp [OptRel])
  | some b₁ =>
    cases rb₂ with
    | none => exact absurd h (by simp [OptRel])
    | some b₂ =>
      have hb : _ := h
      obtain ⟨hdd, hrr, hcont⟩ := hb
      obtain ⟨hnd, hwfc⟩ := hwf _ rfl
      simp only [writeRequestBody]
      rw [hdd, hrr, contentJoin_congr hcont hnd hwfc]

theorem writeResponses_congr {rs₁ rs₂ : Option (List (String × Option Response))}
    (h : OptRel (MapRel RespRel) rs₁ rs₂)
    (hwf : ∀ m, rs₁ = some m → (m.map Prod.fst).Nodup ∧ ∀ e ∈ m, WfResp e.2) :
    writeResponses rs₁ = writeResponses rs₂ := by
  cases rs₁ with
  | none =>
    cases rs₂ with
    | none => rfl
    | some m₂ => exact absurd h (by simp [OptRel])
  | some m₁ =>
    cases rs₂ with
    | none => exact absurd h (by simp [OptRel])
    | some m₂ =>
      have hm : MapRel RespRel m₁ m₂ := h
      obtain ⟨hnd, hwfr⟩ := hwf _ rfl
      simp only [writeResponses]
      rw [← mapRel_isEmpty hm]
      rcases hp : m₁.isEmpty with _ | _
      · simp only [Bool.false_eq_true, if_false]
        refine congrArg (HeaderResponses ++ ·) ?_
        exact renderSorted_congr hm _ _ (fun k =>
          writeResponseEntry_congr k (mapRel_lookup hm hnd k)
            (fun r hr => hwfr _ (lookup_mem hr)))
      · rfl

theorem writeOperationMetadata_congr {o₁ o₂ : Operation}
    (hs : o₁.summary = o₂.summary) (hd : o₁.description = o₂.description)
    (hid : o₁.operationID = o₂.operationID) (ht : o₁.tags = o₂.tags)
    (hdep : o₁.deprecated = o₂.deprecated) :
    writeOperationMetadata o₁ = writeOperationMetadata o₂ := by
  simp only [writeOperationMetadata]
  rw [hs, hd, hid, ht, hdep]

/-- Equivalent operations render to byte-identical text. -/
theorem writeOperation_congr (method path : String) {o₁ o₂ : Operation}
    (h : OpEquiv o₁ o₂) (hwf : WfOp o₁) :
    writeOperation method path o₁ = writeOperation method path o₂ := by
  obtain ⟨hs, hd, hid, ht, hdep, hparams, hrb, hresp, hsec⟩ := h
  obtain ⟨hwrb, hwresp⟩ := hwf
  simp only [writeOperation]
  rw [writeOperationMetadata_congr hs hd hid ht hdep,
    writeParameters_congr hparams,
    writeRequestBody_congr hrb (fun rb hrb2 => by rw [hrb2] at hwrb; exact hwrb),
    writeResponses_congr hresp (fun m hm => by rw [hm] at hwresp; exact hwresp),
    hsec]

/-! ## Claim C1: theorem, counterexample and witness -/

/-- C1 (amended): `GenerateMarkdown` is deterministic up to the
iteration order of every sorted-before-use map — property maps (at
every nesting depth), content-type maps, response-header maps, example
maps and status-code maps.  Two renders of the same document, path and
filter whose operation iteration sequences agree method-for-method
(with operations equal up to those map orders and identical
security-requirement presentations) produce byte-identical output.  The
operations map and the security-requirement maps are excluded: the code
iterates both directly, so their order must coincide (see the
counterexample). -/
theorem generateMarkdown_deterministic (doc : Doc) (path methodFilter : String)
    (p₁ p₂ : PathItem) (ops₁ ops₂ : List (String × Operation))
    (_hops₁ : ops₁.Perm (definedOps p₁)) (_hops₂ : ops₂.Perm (definedOps p₂))
    (hrel : List.Forall₂ (fun a b : String × Operation => a.1 = b.1 ∧ OpEquiv a.2 b.2) ops₁ ops₂)
    (hwf : ∀ e ∈ ops₁, WfOp e.2) :
    GenerateMarkdown doc path (some p₁) methodFilter ops₁
      = GenerateMarkdown doc path (some p₂) methodFilter ops₂ := by
  simp only [GenerateMarkdown]
  refine congrArg (writeHeader doc path ++ ·) ?_
  unfold writeOperations
  clear _hops₁ _hops₂
  induction hrel with
  | nil => rfl
  | @cons a b l₁ l₂ hab hf ih =>
    rw [List.map_cons, List.map_cons, join_cons, join_cons]
    have hhead : (if methodFilter ≠ "" && a.1 ≠ methodFilter then ""
        else writeOperation a.1 path a.2)
        = (if methodFilter ≠ "" && b.1 ≠ methodFilter then ""
        else writeOperation b.1 path b.2) := by
      rw [← hab.1]
      rcases hcond : (methodFilter ≠ "" && a.1 ≠ methodFilter : Bool) with _ | _
      · simp only [Bool.false_eq_true, if_false]
        exact writeOperation_congr a.1 path hab.2 (hwf _ (List.mem_cons_self _ _))
      · rfl
    rw [hhead, ih (fun e he => hwf e (List.mem_cons_of_mem _ he))]

/-- C1 counterexample to the claim as stated: the same logical input —
one GET operation whose single security requirement map `{a: [s1], b: []}`
is presented in its two possible iteration orders — produces two
different outputs, because `writeSecurity` iterates the requirement map
directly.  (The `Operations()` map is iterated directly too.)  So
`GenerateMarkdown` is not byte-identical "regardless of the iteration
order of … the security-requirement maps". -/
theorem generateMarkdown_security_order_cex :
    secReqAB.Perm secReqBA
    ∧ (definedOps piSecAB).Perm [("GET", opSec secReqAB)]
    ∧ (definedOps piSecBA).Perm [("GET", opSec secReqBA)]
    ∧ GenerateMarkdown doc0 "/x" (some piSecAB) "GET" (definedOps piSecAB)
      ≠ GenerateMarkdown doc0 "/x" (some piSecBA) "GET" (definedOps piSecBA) := by
  refine ⟨by decide, by exact List.Perm.refl _, by exact List.Perm.refl _, by decide⟩

theorem wfs_none : ∀ d, WfS d none := by
  intro d
  cases d <;> simp [WfS]

theorem wfs_str : ∀ d, WfS d (some strSchema) := by
  intro d
  cases d with
  | zero => simp [WfS]
  | succ d =>
    refine ⟨by simp [strSchema, properties_mk], ?_, ?_, ?_, ?_, ?_⟩
    · intro p hp
      simp [strSchema, properties_mk] at hp
    · exact wfs_none d
    · intro o ho
      simp [strSchema, oneOf_mk] at ho
    · intro o ho
      simp [strSchema, anyOf_mk] at ho
    · intro o ho
      simp [strSchema, allOf_mk] at ho

theorem sequiv_propR_refl : ∀ (d : Nat), (∀ a, SEquiv d a a) ∧ (∀ v, PropR d v v) := by
  intro d
  induction d with
  | zero =>
    constructor
    · intro a; simp [SEquiv]
    · intro v
      cases v with
      | none => simp [PropR]
      | some c => simp [PropR, SEquiv]
  | succ d ih =>
    have hS : ∀ a, SEquiv (d + 1) a a := by
      intro a
      cases a with
      | none => simp [SEquiv]
      | some s =>
        simp only [SEquiv, eq_self_iff_true, true_and]
        refine ⟨⟨s.properties, List.Perm.refl _,
            List.forall₂_same.mpr (fun x _ => ⟨rfl, ih.2 x.2⟩)⟩,
          ih.1 s.items,
          List.forall₂_same.mpr (fun x _ => ih.1 x),
          List.forall₂_same.mpr (fun x _ => ih.1 x),
          List.forall₂_same.mpr (fun x _ => ih.1 x)⟩
    refine ⟨hS, ?_⟩
    intro v
    cases v with
    | none => simp [PropR]
    | some c =>
      simp only [PropR, eq_self_iff_true, true_and]
      exact ⟨hS (some c), hS c.items⟩

theorem propR_strSchema (d : Nat) : PropR d (some strSchema) (some strSchema) :=
  (sequiv_propR_refl d).2 (some strSchema)

/-- The two presentations of the witness object schema (properties
`a, b` versus `b, a`) are `SEquiv`-related at the full depth budget. -/
theorem wSchema_sequiv : SEquiv MaxRecursionDepth (some wSchemaAB) (some wSchemaBA) := by
  show SEquiv (19 + 1) (some wSchemaAB) (some wSchemaBA)
  simp only [SEquiv, wSchemaAB, wSchemaBA, core_mk, properties_mk, items_mk,
    oneOf_mk, anyOf_mk, allOf_mk, eq_self_iff_true, true_and]
  refine ⟨?_, List.Forall₂.nil, List.Forall₂.nil, List.Forall₂.nil⟩
  refine ⟨[("b", some strSchema), ("a", some strSchema)], List.Perm.swap _ _ _, ?_⟩
  exact List.forall₂_same.mpr (fun x _ => ⟨rfl, (sequiv_propR_refl 19).2 x.2⟩)

theorem wOp_opEquiv : OpEquiv (wOp wSchemaAB) (wOp wSchemaBA) := by
  refine ⟨rfl, rfl, rfl, rfl, rfl, List.Forall₂.nil, ?_, ?_, rfl⟩
  · show OptRel _ (some _) (some _)
    simp only [OptRel, eq_self_iff_true, true_and]
    refine ⟨[("application/json", some { schema := some wSchemaAB, examples := [] })],
      List.Perm.refl _, ?_⟩
    refine List.Forall₂.cons ⟨rfl, ?_⟩ List.Forall₂.nil
    show MTRel (some _) (some _)
    simp only [MTRel]
    exact ⟨wSchema_sequiv, ⟨[], List.Perm.refl _, List.Forall₂.nil⟩⟩
  · show OptRel (MapRel RespRel) none none
    simp [OptRel]

theorem wOp_wf : WfOp (wOp wSchemaAB) := by
  refine ⟨?_, trivial⟩
  refine ⟨by simp, ?_⟩
  intro e he
  simp only [wOp, List.mem_singleton] at he
  rw [he]
  show WfMT (some _)
  simp only [WfMT]
  refine ⟨?_, by simp⟩
  show WfS (19 + 1) (some wSchemaAB)
  simp only [WfS]
  refine ⟨by simp [wSchemaAB, properties_mk], ?_, wfs_none 19, ?_, ?_, ?_⟩
  · intro p hp
    simp only [wSchemaAB, properties_mk, List.mem_cons, List.not_mem_nil, or_false] at hp
    rcases hp with hp | hp <;> rw [hp] <;> exact ⟨wfs_str 19, wfs_none 19⟩
  · intro o ho; simp [wSchemaAB, oneOf_mk] at ho
  · intro o ho; simp [wSchemaAB, anyOf_mk] at ho
  · intro o ho; simp [wSchemaAB, allOf_mk] at ho

theorem generateMarkdown_deterministic_witness :
    GenerateMarkdown doc0 "/w" (some (wPI wSchemaAB)) "GET" [("GET", wOp wSchemaAB)]
      = GenerateMarkdown doc0 "/w" (some (wPI wSchemaBA)) "GET" [("GET", wOp wSchemaBA)] :=
  generateMarkdown_deterministic doc0 "/w" "GET" (wPI wSchemaAB) (wPI wSchemaBA)
    [("GET", wOp wSchemaAB)] [("GET", wOp wSchemaBA)]
    (List.Perm.refl _) (List.Perm.refl _)
    (List.Forall₂.cons ⟨rfl, wOp_opEquiv⟩ List.Forall₂.nil)
    (fun e he => by
      simp only [List.mem_singleton] at he
      rw [he]
      exact wOp_wf)

end Docfinder
